import Mathlib

/-!
Shallow embedding of the bounded-resource workspace change-tracking engine:
the LRU cache (`src/electron/workspace-context-manager.ts`, second chunk /
`lru-cache.js`), the `FileWatcherService` (`src/electron/main.js`), the
`LightweightContext` workspace index (`src/electron/lightweight-context.js`)
and the `WorkspaceContextManager` pool (`src/electron/workspace-context-manager.ts`).

JavaScript `Map`s are modelled as insertion-ordered association lists
(`Map.set` on an existing key updates in place and keeps the position, on a
new key appends; iteration order is insertion order).  JavaScript `Set`s are
insertion-ordered duplicate-free lists.  `Date.now()` is passed in explicitly
as a natural number of milliseconds.  Thrown exceptions are `Option`/`Except`
failures.  All asynchronous code in the sources runs on the single Node event
loop; it is embedded as sequential state passing.
-/

/-- JS `Map.prototype.get`: first (and, by construction, only) binding of a key. -/
def jsMapGet {K V : Type} [DecidableEq K] : List (K × V) → K → Option V
  | [], _ => none
  | (k', v) :: rest, k => if k' = k then some v else jsMapGet rest k

/-- JS `Map.prototype.has`. -/
def jsMapHas {K V : Type} [DecidableEq K] (m : List (K × V)) (k : K) : Bool :=
  m.any fun p => decide (p.1 = k)

/-- JS `Map.prototype.set`: update in place when the key is present (keeping its
position in iteration order), append otherwise. -/
def jsMapSet {K V : Type} [DecidableEq K] (m : List (K × V)) (k : K) (v : V) :
    List (K × V) :=
  if jsMapHas m k then m.map fun p => if p.1 = k then (p.1, v) else p
  else m ++ [(k, v)]

/-- JS `Map.prototype.delete` (the key is unique by construction, so filtering
all matches removes exactly the binding). -/
def jsMapDelete {K V : Type} [DecidableEq K] (m : List (K × V)) (k : K) :
    List (K × V) :=
  m.filter fun p => decide (p.1 ≠ k)

/-- JS `Set.prototype.add`: append unless already present. -/
def jsSetAdd {K : Type} [DecidableEq K] (s : List K) (k : K) : List K :=
  if k ∈ s then s else s ++ [k]

/-!  ## The bounded cache (`LRUCache`)

From the second chunk of `src/electron/workspace-context-manager.ts`
(the compiled `lru-cache.js`).  `cache` is the JS `Map` of entries,
`accessOrder` the recency array (least recently used first). -/

/-- A cache entry: `{ value, timestamp, accessCount }`. -/
structure CacheEntry (V : Type) where
  value : V
  timestamp : Nat
  accessCount : Nat
  deriving Repr, DecidableEq

/-- The `LRUCache` object state. -/
structure LRUCache (K V : Type) where
  cache : List (K × CacheEntry V)
  accessOrder : List K
  maxSize : Nat
  maxAge : Nat
  deriving Repr, DecidableEq

namespace LRUCache

variable {K V : Type} [DecidableEq K]

/-- `new LRUCache(maxSize = 1000, maxAge = 30 * 60 * 1000)`. -/
def new (maxSize : Nat := 1000) (maxAge : Nat := 30 * 60 * 1000) : LRUCache K V :=
  { cache := [], accessOrder := [], maxSize := maxSize, maxAge := maxAge }

/-- `size()`. -/
def size (c : LRUCache K V) : Nat := c.cache.length

/-- `keys()` (JS `Map` iteration order = insertion order). -/
def keysList (c : LRUCache K V) : List K := c.cache.map Prod.fst

/-- `values()`. -/
def valuesList (c : LRUCache K V) : List V := c.cache.map fun p => p.2.value

/-- `entries()`. -/
def entriesList (c : LRUCache K V) : List (K × V) :=
  c.cache.map fun p => (p.1, p.2.value)

/-- `delete(key)`: returns whether the key was present, removes it from both
the map and the access order. -/
def delete (c : LRUCache K V) (k : K) : Bool × LRUCache K V :=
  let deleted := jsMapHas c.cache k
  if deleted then
    (true, { c with cache := jsMapDelete c.cache k, accessOrder := c.accessOrder.erase k })
  else (false, c)

/-- `get(key)` at time `now`: expiry check, then bump access count, refresh the
timestamp and move the key to the most-recently-used end. -/
def get (c : LRUCache K V) (now : Nat) (k : K) : Option V × LRUCache K V :=
  match jsMapGet c.cache k with
  | none => (none, c)
  | some entry =>
    if now - entry.timestamp > c.maxAge then
      (none, (c.delete k).2)
    else
      let entry' : CacheEntry V :=
        { entry with accessCount := entry.accessCount + 1, timestamp := now }
      (some entry'.value,
       { c with
          cache := c.cache.map fun p => if p.1 = k then (p.1, entry') else p,
          accessOrder := c.accessOrder.erase k ++ [k] })

/-- `cleanupExpired()` at time `now`: collect the expired keys, then `delete` each. -/
def cleanupExpired (c : LRUCache K V) (now : Nat) : LRUCache K V :=
  let expiredKeys :=
    (c.cache.filter fun p => decide (now - p.2.timestamp > c.maxAge)).map Prod.fst
  expiredKeys.foldl (fun c k => (c.delete k).2) c

/-- The `while` loop of `evictLeastRecentlyUsed`: shift the least-recently-used
key off the front of the access order and delete it from the map, while the
map is still at or over capacity.  (The loop body only touches the raw map,
`this.cache.delete(lruKey)`.)  Structural recursion on the access order. -/
def evictLoop (maxSize : Nat) :
    List (K × CacheEntry V) → List K → List (K × CacheEntry V) × List K
  | cache, [] => (cache, [])
  | cache, lruKey :: rest =>
    if cache.length ≥ maxSize then
      evictLoop maxSize (jsMapDelete cache lruKey) rest
    else (cache, lruKey :: rest)

/-- `evictLeastRecentlyUsed()`: purge expired entries first, then remove in
least-recently-used order while still at/over capacity. -/
def evictLeastRecentlyUsed (c : LRUCache K V) (now : Nat) : LRUCache K V :=
  let c := c.cleanupExpired now
  let (cache', order') := evictLoop c.maxSize c.cache c.accessOrder
  { c with cache := cache', accessOrder := order' }

/-- `set(key, value)` at time `now`. -/
def set (c : LRUCache K V) (now : Nat) (k : K) (v : V) : LRUCache K V :=
  if jsMapHas c.cache k then
    -- existing key: update the entry in place, move to the MRU end
    { c with
        cache := c.cache.map fun p =>
          if p.1 = k then
            (p.1, { value := v, timestamp := now, accessCount := p.2.accessCount + 1 })
          else p,
        accessOrder := c.accessOrder.erase k ++ [k] }
  else
    let c := if c.cache.length ≥ c.maxSize then c.evictLeastRecentlyUsed now else c
    { c with
        cache := c.cache ++ [(k, { value := v, timestamp := now, accessCount := 1 })],
        accessOrder := c.accessOrder ++ [k] }

/-- `has(key)` at time `now`: same expiry check (and lazy removal) as `get`. -/
def has (c : LRUCache K V) (now : Nat) (k : K) : Bool × LRUCache K V :=
  match jsMapGet c.cache k with
  | none => (false, c)
  | some entry =>
    if now - entry.timestamp > c.maxAge then (false, (c.delete k).2)
    else (true, c)

/-- `clear()`. -/
def clear (c : LRUCache K V) : LRUCache K V :=
  { c with cache := [], accessOrder := [] }

/-- `forceCleanup()`: eagerly purge expired entries, return the count removed. -/
def forceCleanup (c : LRUCache K V) (now : Nat) : Nat × LRUCache K V :=
  let sizeBefore := c.cache.length
  let c' := c.cleanupExpired now
  (sizeBefore - c'.cache.length, c')

/-- One `set` call of a trace: `(now, key, value)`. -/
def applySets (c : LRUCache K V) : List (Nat × K × V) → LRUCache K V
  | [] => c
  | (now, k, v) :: rest => applySets (c.set now k v) rest

end LRUCache

/-!  ## String, path and pattern helpers

`path.join`, `path.relative`, `path.basename`, `path.extname` as used on the
always-absolute, `/`-separated paths of this codebase, plus the tiny
"glob" dialect both ignore filters use: a pattern containing `*` is turned
into a regular expression by `pattern.replace(/\*/g, '.*')` and tested
(JS `RegExp.prototype.test` searches for a match anywhere), any other
pattern is a plain substring test (`path.includes(pattern)`). -/

/-- Does `sub` occur as a contiguous sublist? (JS `String.prototype.includes`.) -/
def containsSublist {α : Type} [DecidableEq α] : List α → List α → Bool
  | _, [] => true
  | [], _ :: _ => false
  | c :: cs, sub => sub.isPrefixOf (c :: cs) || containsSublist cs sub

/-- JS `s.includes(sub)`. -/
def strContains (s sub : String) : Bool := containsSublist s.data sub.data

/-- JS `s.startsWith(pre)` (structural, character-level). -/
def strStartsWith (s pre : String) : Bool := pre.data.isPrefixOf s.data

/-- JS `s.endsWith(suf)`. -/
def strEndsWith (s suf : String) : Bool := suf.data.isSuffixOf s.data

/-- JS `s.toLowerCase()` (the identifiers involved are ASCII). -/
def strToLower (s : String) : String := String.mk (s.data.map Char.toLower)

/-- The character count of a string. -/
def strLength (s : String) : Nat := s.data.length

/-- Drop the first `n` characters. -/
def strDrop (s : String) (n : Nat) : String := String.mk (s.data.drop n)

/-- JS `s.trim()`. -/
def jsTrim (s : String) : String :=
  String.mk ((s.data.dropWhile Char.isWhitespace).reverse.dropWhile
    Char.isWhitespace).reverse

/-- JS `s.split(sep)` for a one-character separator, on character lists:
always returns at least one (possibly empty) piece, and a trailing separator
yields a trailing empty piece. -/
def splitOnCharList (sep : Char) : List Char → List (List Char)
  | [] => [[]]
  | c :: cs =>
    let r := splitOnCharList sep cs
    if c = sep then [] :: r
    else
      match r with
      | [] => [[c]]
      | h :: t => (c :: h) :: t

/-- JS `s.split(sep)` for a one-character separator. -/
def strSplitOnChar (sep : Char) (s : String) : List String :=
  (splitOnCharList sep s.data).map String.mk

/-- Lexicographic character-list order: the effect of `localeCompare` on the
ASCII paths this codebase handles. -/
def charListLe : List Char → List Char → Bool
  | [], _ => true
  | _ :: _, [] => false
  | a :: as, b :: bs => if a = b then charListLe as bs else decide (a < b)

/-- `a.localeCompare(b) ≤ 0` for ASCII strings. -/
def strLeB (a b : String) : Bool := charListLe a.data b.data

/-- Stable insertion step: `x` goes in front of the first element `y` with
`le x y` (so, before every element it compares equal to). -/
def jsInsertBy {α : Type} (le : α → α → Bool) (x : α) : List α → List α
  | [] => [x]
  | y :: ys => if le x y then x :: y :: ys else y :: jsInsertBy le x ys

/-- JS `Array.prototype.sort` with a consistent comparator: a stable sort.
`le x y` means "the comparator does not put `x` strictly after `y`". -/
def jsSortBy {α : Type} (le : α → α → Bool) : List α → List α
  | [] => []
  | x :: xs => jsInsertBy le x (jsSortBy le xs)

/-- `path.join(a, b)` for the absolute, already-normalized paths used here. -/
def pathJoin (a b : String) : String := a ++ "/" ++ b

/-- `path.relative(base, p)` for the only shapes that occur: `p` equal to
`base` or strictly inside it. -/
def pathRelative (base p : String) : String :=
  if p = base then ""
  else if strStartsWith p (base ++ "/") then strDrop p (strLength base + 1)
  else p

/-- `path.basename`: the component after the last separator (`splitOn` always
returns a nonempty list, so the default is never used). -/
def basenameOf (p : String) : String := (strSplitOnChar '/' p).getLastD p

/-- Suffix starting at the last `'.'` of the list, if any. -/
def lastDotSuffix : List Char → Option (List Char)
  | [] => none
  | c :: cs =>
    match lastDotSuffix cs with
    | some e => some e
    | none => if c = '.' then some (c :: cs) else none

/-- `path.extname`: extension of the basename including the dot; a dot in the
first position (dotfiles) does not start an extension. -/
def extnameOf (p : String) : String :=
  match (basenameOf p).data with
  | [] => ""
  | _ :: rest =>
    match lastDotSuffix rest with
    | some e => String.mk e
    | none => ""

/-- One atom of the compiled pattern: `'*'` becomes `.*`, `'.'` is the regex
any-character, anything else is a literal. -/
inductive RAtom : Type where
  | dotStar : RAtom
  | anyChar : RAtom
  | lit : Char → RAtom
  deriving Repr, DecidableEq

/-- `pattern.replace(/\*/g, '.*')`, compiled (the ignore patterns contain no
other regex metacharacters). -/
def compileJsPattern (pattern : String) : List RAtom :=
  pattern.data.map fun c =>
    if c = '*' then RAtom.dotStar else if c = '.' then RAtom.anyChar else RAtom.lit c

/-- Match the compiled pattern against a prefix of the text; `fuel` bounds
the backtracking (every step shortens pattern or text, so
`ps.length + cs.length + 1` always suffices). -/
def matchHereF : Nat → List RAtom → List Char → Bool
  | 0, _, _ => false
  | _ + 1, [], _ => true
  | _ + 1, RAtom.lit _ :: _, [] => false
  | fuel + 1, RAtom.lit c :: ps, x :: xs => decide (c = x) && matchHereF fuel ps xs
  | _ + 1, RAtom.anyChar :: _, [] => false
  | fuel + 1, RAtom.anyChar :: ps, _ :: xs => matchHereF fuel ps xs
  | fuel + 1, RAtom.dotStar :: ps, xs =>
    matchHereF fuel ps xs ||
      match xs with
      | [] => false
      | _ :: t => matchHereF fuel (RAtom.dotStar :: ps) t

/-- Match the compiled pattern against a prefix of the text. -/
def matchHere (ps : List RAtom) (cs : List Char) : Bool :=
  matchHereF (ps.length + cs.length + 1) ps cs

/-- JS `RegExp.prototype.test`: search for a match at any position. -/
def regexSearch (ps : List RAtom) : List Char → Bool
  | [] => matchHere ps []
  | c :: cs => matchHere ps (c :: cs) || regexSearch ps cs

/-- The shared body of `LightweightContext.shouldIgnore` and
`FileWatcherService.shouldIgnoreFile`: star patterns go through the regex,
plain patterns are substring tests. -/
def jsPatternTest (pattern path : String) : Bool :=
  if strContains pattern "*" then regexSearch (compileJsPattern pattern) path.data
  else strContains path pattern

/-!  ## The filesystem interface

The directory-listing, stat and read primitives the core consumes
(`readdir`/`readdirSync`, `stat`/`statSync`, `existsSync`, `readFile`).
`none` models a thrown error.  `readdirSync(p, { withFileTypes: true })`
is derived by stat-ing each listed name. -/

/-- A stat result (only the fields the sources read). -/
structure FSStat where
  isFile : Bool
  isDirectory : Bool
  size : Nat
  mtimeMs : Nat
  deriving Repr, DecidableEq

/-- The filesystem as consumed by the core. -/
structure FS where
  readdir : String → Option (List String)
  stat : String → Option FSStat
  readFile : String → Option String

/-- `existsSync`. -/
def FS.existsSync (fs : FS) (p : String) : Bool := (fs.stat p).isSome

/-- `readdirSync(p, { withFileTypes: true })`: names with their kinds. -/
def FS.readdirTyped (fs : FS) (p : String) : Option (List (String × FSStat)) :=
  (fs.readdir p).map fun names =>
    names.map fun n => (n, (fs.stat (pathJoin p n)).getD ⟨false, false, 0, 0⟩)

/-!  ## The Watch Service (`FileWatcherService`, `src/electron/main.js`)

The chokidar watcher objects themselves are opaque; a map value `some ()`
is a real watcher, `none` is the `null` mock registered for skipped large
directories.  Event emission, `setTimeout` retry scheduling and calls into
the native watch primitive are collected as an effect list. -/

/-- A filesystem change event (`{ type, path, relativePath, stats }`). -/
structure ChangeEvent where
  type : String
  path : String
  relativePath : String
  stats : Option FSStat
  deriving Repr, DecidableEq

/-- Observable effects of the watch service: `this.emit(...)` calls, retry
timers and native `watch(...)` invocations. -/
inductive FWEffect : Type where
  | emitSkipped (directory reason : String)
  | emitReady (directory : String)
  | emitError (directory message : String)
  | emitDirectoryFailed (directory message : String)
  | emitFallbackActivated (reason : String)
  | emitFileChange (directory : String) (event : ChangeEvent)
  | scheduleRetry (directory : String) (delayMs : Nat)
  | nativeWatchCall (directory : String)
  deriving Repr, DecidableEq

/-- The chokidar `watch` options the service manipulates. -/
structure WatchOptions where
  ignored : List String := []
  depth : Option Nat := none
  usePolling : Option Bool := none
  interval : Option Nat := none
  deriving Repr, DecidableEq

/-- The `FileWatcherService` object state (field initializers from the source). -/
structure FileWatcherService where
  watchers : List (String × Option Unit) := []
  fileIndex : List (String × List String) := []
  changeQueue : List (String × List ChangeEvent) := []
  watcherCount : Nat := 0
  emfileRetryAttempts : List (String × Nat) := []
  maxWatchers : Nat := 25
  maxRetryAttempts : Nat := 3
  retryDelay : Nat := 1000
  failedDirectories : List String := []
  fallbackMode : Bool := false
  fallbackReason : Option String := none
  isWatchingDisabled : Bool := false
  watchingStrategy : String := "conservative"
  deriving Repr

namespace FileWatcherService

/-- `watchDirectory(dirPath, options)`: the first statement of the body is an
unconditional emergency return — it emits `directory:skipped` with reason
`emergency_disabled` and returns.  Everything after it in the source body
(user-setting check, fallback check, size estimation, the inert large-tree
registration, option merging and the chokidar `watch` call) is unreachable
dead code, so the live function never touches the service state. -/
def watchDirectory (s : FileWatcherService) (dirPath : String)
    (_options : WatchOptions) : FileWatcherService × List FWEffect :=
  (s, [FWEffect.emitSkipped dirPath "emergency_disabled"])

/-- `unwatchDirectory(dirPath)`: close (no state of ours), then drop the
bookkeeping whether the watcher was real or the `null` mock. -/
def unwatchDirectory (s : FileWatcherService) (dirPath : String) : FileWatcherService :=
  if jsMapHas s.watchers dirPath then
    { s with
        watchers := jsMapDelete s.watchers dirPath,
        fileIndex := jsMapDelete s.fileIndex dirPath,
        changeQueue := jsMapDelete s.changeQueue dirPath,
        emfileRetryAttempts := jsMapDelete s.emfileRetryAttempts dirPath,
        watcherCount := s.watcherCount - 1 }
  else s

/-- The loop body of `getDirectoryStats`, with `break` as an early return.
Arguments: the remaining top-level entries, then the accumulators
`estimatedFileCount`, `actualFileCount`, `directoriesScanned`; `total` is
`topLevelFiles.length`.  Returns `(estimatedFileCount, actualFileCount)`. -/
def gdsLoop (fs : FS) (dirPath : String) (total : Nat) :
    List (String × FSStat) → Nat → Nat → Nat → Nat × Nat
  | [], est, act, _ => (est, act)
  | (name, st) :: rest, est, act, scanned =>
    if st.isFile then gdsLoop fs dirPath total rest est (act + 1) scanned
    else if st.isDirectory then
      let dirName := strToLower name
      if scanned < 10 ∧ ¬ strStartsWith dirName "." ∧ dirName ≠ "node_modules" then
        match fs.readdirTyped (pathJoin dirPath name) with
        | some subFiles =>
          let subFileCount := (subFiles.filter fun f => f.2.isFile).length
          let est := est + subFileCount
          let scanned := scanned + 1
          if subFileCount > 100 then (est + (total - scanned) * 200, act)
          else gdsLoop fs dirPath total rest est act scanned
        | none => gdsLoop fs dirPath total rest (est + 100) act scanned
      else
        if dirName = "node_modules" then gdsLoop fs dirPath total rest est act scanned
        else if dirName = ".git" then gdsLoop fs dirPath total rest (est + 1000) act scanned
        else if strStartsWith dirName "." then gdsLoop fs dirPath total rest (est + 50) act scanned
        else gdsLoop fs dirPath total rest (est + 200) act scanned
    else gdsLoop fs dirPath total rest est act scanned

/-- `getDirectoryStats(dirPath)`: shallow probe of the top level plus sampled
subdirectories; on a read error assume a medium-sized tree (2000). -/
def getDirectoryStats (fs : FS) (dirPath : String) : Nat :=
  match fs.readdirTyped dirPath with
  | none => 2000
  | some topLevelFiles =>
    let (est, act) := gdsLoop fs dirPath topLevelFiles.length topLevelFiles 0 0 0
    act + est

/-- `enterFallbackMode(reason)`. -/
def enterFallbackMode (s : FileWatcherService) (reason : String) :
    FileWatcherService × List FWEffect :=
  ({ s with fallbackMode := true, fallbackReason := some reason },
   [FWEffect.emitFallbackActivated reason])

/-- `markDirectoryFailed(dirPath, error)`: add to the failed set; at 3 or more
failed roots enter service-wide fallback; emit `directory:failed`. -/
def markDirectoryFailed (s : FileWatcherService) (dirPath errMessage : String) :
    FileWatcherService × List FWEffect :=
  let s := { s with failedDirectories := jsSetAdd s.failedDirectories dirPath }
  let (s, effs) :=
    if s.failedDirectories.length ≥ 3 then
      enterFallbackMode s
        ("Multiple directory watch failures (" ++ toString s.failedDirectories.length ++ ")")
    else (s, [])
  (s, effs ++ [FWEffect.emitDirectoryFailed dirPath errMessage])

/-- `canWatchDirectory(dirPath)`. -/
def canWatchDirectory (s : FileWatcherService) (dirPath : String) : Bool :=
  ¬ dirPath ∈ s.failedDirectories ∧ ¬ s.fallbackMode

/-- `isWatchingEnabled()`. -/
def isWatchingEnabled (s : FileWatcherService) : Bool :=
  ¬ s.isWatchingDisabled ∧ s.watchingStrategy ≠ "disabled"

/-- Helper of `performAggressiveCleanup`: the tracked-file count of a root. -/
def trackedCount (s : FileWatcherService) (dirPath : String) : Nat :=
  ((jsMapGet s.fileIndex dirPath).getD []).length

/-- `performAggressiveCleanup()`: release half of all watchers, prioritizing
those covering the most tracked files (stable sort, descending file count,
`Math.ceil(n / 2)` removed). -/
def performAggressiveCleanup (s : FileWatcherService) : FileWatcherService :=
  let watcherEntries := s.watchers
  let sorted :=
    jsSortBy (fun a b => decide (trackedCount s b.1 ≤ trackedCount s a.1)) watcherEntries
  let toRemove := sorted.take ((watcherEntries.length + 1) / 2)
  toRemove.foldl (fun s p => unwatchDirectory s p.1) s

/-- `handleEMFILEError(dirPath, error)`: drop the failed watcher, aggressively
clean up, then either schedule a bounded retry (the `setTimeout` callback
re-invokes `watchDirectory` with conservative polling options) or, once
`maxRetryAttempts` is reached, clear the retry counter and emit an error.
It never calls `markDirectoryFailed`. -/
def handleEMFILEError (s : FileWatcherService) (dirPath errMessage : String) :
    FileWatcherService × List FWEffect :=
  let s := unwatchDirectory s dirPath
  let s := performAggressiveCleanup s
  let retryCount := (jsMapGet s.emfileRetryAttempts dirPath).getD 0
  if retryCount < s.maxRetryAttempts then
    ({ s with emfileRetryAttempts := jsMapSet s.emfileRetryAttempts dirPath (retryCount + 1) },
     [FWEffect.scheduleRetry dirPath s.retryDelay])
  else
    ({ s with emfileRetryAttempts := jsMapDelete s.emfileRetryAttempts dirPath },
     [FWEffect.emitError dirPath errMessage])

/-- `n` consecutive EMFILE errors on the same root; collects all effects. -/
def applyEMFILEErrors (dirPath errMessage : String) :
    Nat → FileWatcherService → FileWatcherService × List FWEffect
  | 0, s => (s, [])
  | n + 1, s =>
    let (s, effs) := handleEMFILEError s dirPath errMessage
    let (s, effs') := applyEMFILEErrors dirPath errMessage n s
    (s, effs ++ effs')

/-- The fixed pattern list of `shouldIgnoreFile` (manual refresh). -/
def mrIgnoredPatterns : List String :=
  ["node_modules", ".git", "dist", "build", ".DS_Store", "*.log",
   "coverage", ".vscode", ".idea", "tmp", "temp", ".cache"]

/-- `shouldIgnoreFile(relativePath)`. -/
def shouldIgnoreFile (relativePath : String) : Bool :=
  mrIgnoredPatterns.any fun pattern => jsPatternTest pattern relativePath

end FileWatcherService

namespace FileWatcherService

/-- The recursion core of the `scanFiles` closure of `manualRefresh`:
bounded-depth walk accumulating the new path set and the synthesized `add`
events (a file absent from the previously recorded index).  `gas` is
`4 - depth`, so `gas = 0` is exactly the source's `depth > 3` early return
and the walk is structurally bounded; `depth` itself still drives the
source's `depth < 3` descent test.  A directory-read error propagates out of
the whole refresh (`readdirSync` throws inside the outer `try`). -/
def mrScanGo (fs : FS) (dirPath : String) (currentIndex : List String) :
    Nat → String → Nat → List String × List ChangeEvent →
    Except Unit (List String × List ChangeEvent)
  | 0, _, _, acc => Except.ok acc
  | gas + 1, currentPath, depth, acc =>
    match fs.readdirTyped currentPath with
    | none => Except.error ()
    | some entries =>
      entries.foldl
        (fun eacc p =>
          match eacc with
          | Except.error e => Except.error e
          | Except.ok acc =>
            let name := p.1
            let st := p.2
            let fullPath := pathJoin currentPath name
            let relativePath := pathRelative dirPath fullPath
            if shouldIgnoreFile relativePath then Except.ok acc
            else if st.isFile then
              let newFiles := jsSetAdd acc.1 fullPath
              let changes :=
                if fullPath ∈ currentIndex then acc.2
                else acc.2 ++
                  [{ type := "add", path := fullPath, relativePath := relativePath,
                     stats := none }]
              Except.ok (newFiles, changes)
            else if st.isDirectory ∧ depth < 3 then
              mrScanGo fs dirPath currentIndex gas fullPath (depth + 1) acc
            else Except.ok acc)
        (Except.ok acc)

/-- The `scanFiles(currentPath, depth)` closure of `manualRefresh`. -/
def mrScanDir (fs : FS) (dirPath : String) (currentIndex : List String)
    (currentPath : String) (depth : Nat)
    (acc : List String × List ChangeEvent) :
    Except Unit (List String × List ChangeEvent) :=
  mrScanGo fs dirPath currentIndex (4 - depth) currentPath depth acc

/-- `manualRefresh(dirPath)`: scan, diff against the recorded path set
(new on disk ⇒ `add`, recorded but gone ⇒ `unlink`), replace the recorded
set, emit one `file:change` per change; returns the changes and the new
total file count. -/
def manualRefresh (fs : FS) (s : FileWatcherService) (dirPath : String) :
    Except Unit (FileWatcherService × List ChangeEvent × Nat × List FWEffect) :=
  let currentIndex := (jsMapGet s.fileIndex dirPath).getD []
  match mrScanDir fs dirPath currentIndex dirPath 0 ([], []) with
  | Except.error e => Except.error e
  | Except.ok (newFiles, changes) =>
    let changes := changes ++
      (currentIndex.filter fun p => decide (¬ p ∈ newFiles)).map fun filePath =>
        { type := "unlink", path := filePath,
          relativePath := pathRelative dirPath filePath, stats := none }
    let s := { s with fileIndex := jsMapSet s.fileIndex dirPath newFiles }
    Except.ok (s, changes, newFiles.length,
      changes.map fun change => FWEffect.emitFileChange dirPath change)

end FileWatcherService

/-!  ## The Workspace Index (`LightweightContext`, `src/electron/lightweight-context.js`)

The constant instance fields (`languageMap`, the default `ignorePatterns`,
the binary-extension, entry-point, config-file and project-marker lists) are
embedded as top-level definitions. -/

/-- The extension → language map. -/
def languageMap : List (String × String) :=
  [(".js", "javascript"), (".ts", "typescript"), (".jsx", "javascript"),
   (".tsx", "typescript"), (".vue", "vue"), (".py", "python"), (".java", "java"),
   (".cpp", "cpp"), (".c", "c"), (".cs", "csharp"), (".php", "php"),
   (".rb", "ruby"), (".go", "go"), (".rs", "rust"), (".swift", "swift"),
   (".kt", "kotlin"), (".scala", "scala"), (".ex", "elixir"), (".al", "al"),
   (".html", "html"), (".css", "css"), (".json", "json"), (".md", "markdown"),
   (".yaml", "yaml"), (".yml", "yaml"), (".xml", "xml"), (".sql", "sql")]

/-- The default `ignorePatterns` field. -/
def defaultIgnorePatterns : List String :=
  ["node_modules", "vendor", "packages", ".pnpm-store",
   ".git", ".svn", ".hg",
   ".claude", ".claude-checkpoints", ".clode", ".worktrees", ".vscode", ".idea",
   "*.swp", "*.swo",
   "dist", "build", "out", ".output", ".next", "public/build", "target", "bin", "obj",
   "logs", "*.log", "tmp", "temp", ".tmp", ".temp",
   ".cache", ".parcel-cache", ".nuxt", ".turbo", ".webpack",
   "coverage", ".nyc_output", ".coverage", "htmlcov",
   "__pycache__", "*.pyc", "*.pyo", "*.class", "*.o", "*.so", "*.dll", "*.exe",
   ".DS_Store", "Thumbs.db", "desktop.ini",
   "*.mp4", "*.avi", "*.mov", "*.wmv", "*.mp3", "*.wav", "*.flac",
   "*.zip", "*.rar", "*.7z", "*.tar.gz", "*.dmp", "*.dump"]

/-- The `binaryExtensions` list of `isBinaryFile`. -/
def binaryExtensions : List String :=
  [".exe", ".dll", ".so", ".dylib", ".bin", ".dat",
   ".jpg", ".jpeg", ".png", ".gif", ".bmp", ".ico",
   ".mp3", ".mp4", ".avi", ".mov", ".wmv",
   ".zip", ".rar", ".7z", ".tar", ".gz",
   ".pdf", ".doc", ".docx", ".xls", ".xlsx"]

/-- The `entryPoints` list of `isEntryPoint`. -/
def entryPointNames : List String :=
  ["main.js", "main.ts", "index.js", "index.ts",
   "app.js", "app.ts", "server.js", "server.ts",
   "main.py", "__main__.py", "app.py",
   "Main.java", "Application.java",
   "main.cpp", "main.c",
   "Program.cs", "Main.cs"]

/-- The `configFiles` list of `isConfigFile`. -/
def configFileNames : List String :=
  ["package.json", "tsconfig.json", "nuxt.config.ts", "vite.config.ts",
   "webpack.config.js", "rollup.config.js", "babel.config.js",
   "pom.xml", "build.gradle", "Cargo.toml", "requirements.txt",
   "Dockerfile", "docker-compose.yml", ".gitignore", "README.md"]

/-- The `projectFiles` marker list of `validateWorkspacePath`. -/
def projectMarkerFiles : List String :=
  ["package.json", "pom.xml", "Cargo.toml", "requirements.txt",
   "go.mod", "Gemfile", "composer.json", ".git"]

/-- A `FileInfo` record as stored in the file cache. -/
structure FileInfo where
  path : String
  name : String
  size : Nat
  language : String
  lastModified : Nat
  isDirectory : Bool
  relevanceScore : Option Nat := none
  deriving Repr, DecidableEq

/-- The derived `ProjectInfo`. -/
structure ProjectInfo where
  type : String
  framework : Option String
  languages : List String
  entryPoints : List String
  configFiles : List String
  totalFiles : Nat
  languageDistribution : List (String × Nat)
  deriving Repr, DecidableEq

/-- The `LightweightContext` object state.  Timers, the watcher-cleanup
closure and the registered UI callbacks are externally opaque, so they are
tracked by liveness flags and callback ids only. -/
structure LightweightContext where
  workspacePath : String := ""
  fileCache : LRUCache String FileInfo
  projectInfo : Option ProjectInfo := none
  lastScanTime : Nat := 0
  isDestroyed : Bool := false
  watcherCallbacks : List String := []
  fileWatcherCleanup : Bool := false
  callbackIdCounter : Nat := 0
  scanDebounceTimer : Bool := false
  MAX_FILES : Nat := 300
  MAX_FILE_SIZE : Nat := 512 * 1024
  MAX_CACHE_AGE : Nat := 30 * 60 * 1000
  memoryMonitorInterval : Bool := false
  ignorePatterns : List String := defaultIgnorePatterns
  deriving Repr

namespace LightweightContext

/-- `new LightweightContext()`: field initializers plus the constructor, which
creates the LRU cache with the (field-initializer) conservative limits. -/
def new : LightweightContext :=
  { fileCache := LRUCache.new 300 (30 * 60 * 1000) }

/-- `shouldIgnore(path)`: some ignore pattern matches (star patterns via the
JS regex translation, plain patterns as substring). -/
def shouldIgnore (c : LightweightContext) (path : String) : Bool :=
  c.ignorePatterns.any fun pattern => jsPatternTest pattern path

/-- `isBinaryFile(filename)`. -/
def isBinaryFile (filename : String) : Bool :=
  strToLower (extnameOf filename) ∈ binaryExtensions

/-- `isEntryPoint(filename)`. -/
def isEntryPoint (filename : String) : Bool := filename ∈ entryPointNames

/-- `isConfigFile(filename)`. -/
def isConfigFile (filename : String) : Bool := filename ∈ configFileNames

/-- `detectProjectType(files)`: marker filenames in fixed priority order. -/
def detectProjectType (files : List FileInfo) : String :=
  let fileNames := files.map fun f => f.name
  if "package.json" ∈ fileNames then "nodejs"
  else if "pom.xml" ∈ fileNames then "java"
  else if "Cargo.toml" ∈ fileNames then "rust"
  else if "requirements.txt" ∈ fileNames then "python"
  else if "go.mod" ∈ fileNames then "go"
  else if "Gemfile" ∈ fileNames then "ruby"
  else if "composer.json" ∈ fileNames then "php"
  else if fileNames.any (fun name => strEndsWith name ".csproj") then "csharp"
  else if fileNames.any (fun name => strEndsWith name ".vcxproj") then "cpp"
  else if "app.json" ∈ fileNames then "al"
  else "unknown"

/-- `detectFramework(files)`. -/
def detectFramework (files : List FileInfo) : Option String :=
  let fileNames := files.map fun f => f.name
  if "nuxt.config.ts" ∈ fileNames then some "nuxt"
  else if "next.config.js" ∈ fileNames then some "nextjs"
  else if "vue.config.js" ∈ fileNames then some "vue"
  else if "angular.json" ∈ fileNames then some "angular"
  else if "svelte.config.js" ∈ fileNames then some "svelte"
  else if "gatsby-config.js" ∈ fileNames then some "gatsby"
  else if "vite.config.ts" ∈ fileNames then some "vite"
  else none

/-- `analyzeProject(files)`: one pass accumulating the language distribution,
language set, entry points and config files, then the derived record. -/
def analyzeProject (files : List FileInfo) : ProjectInfo :=
  let languageDistribution := files.foldl
    (fun d f => jsMapSet d f.language ((jsMapGet d f.language).getD 0 + 1)) []
  let languages := files.foldl (fun s f => jsSetAdd s f.language) []
  let entryPoints := (files.filter fun f => isEntryPoint f.name).map fun f => f.path
  let configFiles := (files.filter fun f => isConfigFile f.name).map fun f => f.path
  { type := detectProjectType files,
    framework := detectFramework files,
    languages := languages,
    entryPoints := entryPoints,
    configFiles := configFiles,
    totalFiles := files.length,
    languageDistribution := languageDistribution }

/-- The `for (const entry of entries)` loop of `validateWorkspacePath`,
counting subdirectories that contain a project marker file; `none` models a
`stat` throw, which aborts the whole validation via its `catch`. -/
def countProjectLikeDirs (fs : FS) (c : LightweightContext) (workspacePath : String) :
    List String → Nat → Option Nat
  | [], n => some n
  | entry :: rest, n =>
    let fullPath := pathJoin workspacePath entry
    match fs.stat fullPath with
    | none => none
    | some stats =>
      if stats.isDirectory ∧ ¬ c.shouldIgnore entry then
        if projectMarkerFiles.any (fun pf => fs.existsSync (pathJoin fullPath pf)) then
          countProjectLikeDirs fs c workspacePath rest (n + 1)
        else countProjectLikeDirs fs c workspacePath rest n
      else countProjectLikeDirs fs c workspacePath rest n

/-- `validateWorkspacePath(workspacePath)`: count project-like immediate
subdirectories; at 3 or more lower the scan limit `MAX_FILES` to 200, at
exactly 1 lower it to 500.  Any read/stat error is caught and leaves the
instance unchanged.  (Note: only the `MAX_FILES` field changes; the already
constructed `fileCache` keeps its own `maxSize`.) -/
def validateWorkspacePath (fs : FS) (c : LightweightContext) (workspacePath : String) :
    LightweightContext :=
  match fs.readdir workspacePath with
  | none => c
  | some entries =>
    match countProjectLikeDirs fs c workspacePath entries 0 with
    | none => c
    | some projectLikeDirs =>
      if projectLikeDirs ≥ 3 then { c with MAX_FILES := min c.MAX_FILES 200 }
      else if projectLikeDirs = 1 then { c with MAX_FILES := min c.MAX_FILES 500 }
      else c

/-- `loadGitignorePatterns()`: append each non-empty, non-comment line of the
workspace `.gitignore` that is not already among the patterns. -/
def loadGitignorePatterns (fs : FS) (c : LightweightContext) : LightweightContext :=
  let gitignorePath := pathJoin c.workspacePath ".gitignore"
  if fs.existsSync gitignorePath then
    match fs.readFile gitignorePath with
    | none => c
    | some content =>
      { c with ignorePatterns :=
          (strSplitOnChar '\n' content).foldl (fun pats line =>
            let trimmedLine := jsTrim line
            if trimmedLine = "" ∨ strStartsWith trimmedLine "#" then pats
            else if trimmedLine ∈ pats then pats
            else pats ++ [trimmedLine]) c.ignorePatterns }
  else c

end LightweightContext

namespace LightweightContext

/-- The recursion core of `scanDirectory(dirPath, depth)`.  `gas` is
`9 - depth`, so `gas = 0` is exactly the source's `depth > 8` early return
and the walk is structurally bounded.  The `BATCH_SIZE`d `Promise.all`
batches and `setImmediate` yields only cooperate with the single-threaded
event loop; sequential processing in entry order (the fold) is their
observable behaviour.  A read error on the directory is caught (empty
result); a `stat` error on one entry skips just that entry.  A file is
accepted unless it is too large, binary-by-extension, or the cache has
already reached `MAX_FILES` (the scan stops accepting, it does not evict).
-/
def scanDirGo (fs : FS) (now : Nat) :
    Nat → LightweightContext → String → LightweightContext × List FileInfo
  | 0, c, _ => (c, [])
  | gas + 1, c, dirPath =>
    if c.isDestroyed then (c, [])
    else
      let relativePath := pathRelative c.workspacePath dirPath
      if c.shouldIgnore relativePath then (c, [])
      else if ¬ fs.existsSync dirPath then (c, [])
      else
        match fs.readdir dirPath with
        | none => (c, [])
        | some entries =>
          entries.foldl
            (fun acc entry =>
              let (c, files) := acc
              let fullPath := pathJoin dirPath entry
              match fs.stat fullPath with
              | none => (c, files)
              | some stats =>
                if stats.isDirectory then
                  let (c, sub) := scanDirGo fs now gas c fullPath
                  (c, files ++ sub)
                else
                  let ext := strToLower (extnameOf entry)
                  let language := (jsMapGet languageMap ext).getD "unknown"
                  if stats.size > c.MAX_FILE_SIZE ∨ isBinaryFile entry then (c, files)
                  else if c.fileCache.size ≥ c.MAX_FILES then (c, files)
                  else
                    let fileInfo : FileInfo :=
                      { path := fullPath, name := entry, size := stats.size,
                        language := language, lastModified := stats.mtimeMs,
                        isDirectory := false }
                    ({ c with fileCache := c.fileCache.set now fullPath fileInfo },
                     files ++ [fileInfo]))
            (c, [])

/-- `scanDirectory(dirPath, depth = 0)`. -/
def scanDirectory (fs : FS) (now : Nat) (c : LightweightContext)
    (dirPath : String) (depth : Nat) : LightweightContext × List FileInfo :=
  scanDirGo fs now (9 - depth) c dirPath

/-- `scanWorkspace()`: clear the cache, walk the tree, derive the project
info. -/
def scanWorkspace (fs : FS) (now : Nat) (c : LightweightContext) : LightweightContext :=
  if c.isDestroyed then c
  else
    let c := { c with fileCache := c.fileCache.clear }
    let (c, files) := scanDirectory fs now c c.workspacePath 0
    { c with projectInfo := some (analyzeProject files), lastScanTime := now }

/-- `stopWatching()`: run the stored watcher-cleanup closure and cancel the
debounce timer.  (The `fileWatcherService.unwatchDirectory` call is a no-op
on the service in live runs, since `watchDirectory` never registers.) -/
def stopWatching (c : LightweightContext) : LightweightContext :=
  { c with fileWatcherCleanup := false, scanDebounceTimer := false }

/-- `startWatching()`: the `fileWatcherService.watchDirectory` call
short-circuits (emergency skip, no service state change); the `file:change`
listener and its cleanup closure are registered. -/
def startWatching (c : LightweightContext) : LightweightContext :=
  if c.workspacePath = "" ∨ c.isDestroyed then c
  else { c with fileWatcherCleanup := true }

/-- `stopMemoryMonitor()`. -/
def stopMemoryMonitor (c : LightweightContext) : LightweightContext :=
  { c with memoryMonitorInterval := false }

/-- `startMemoryMonitor()`. -/
def startMemoryMonitor (c : LightweightContext) : LightweightContext :=
  if c.isDestroyed then c
  else { (c.stopMemoryMonitor) with memoryMonitorInterval := true }

/-- `initialize(workspacePath)`: **throws** on a destroyed instance, validates
existence, probes for a multi-project root (possibly lowering `MAX_FILES`),
loads `.gitignore` patterns, adopts persisted project info if any, scans, and
starts watching and the memory monitor.  `persisted` stands for the external
`workspacePersistence.loadWorkspaceContext` collaborator. -/
def initCtx (fs : FS) (persisted : Option ProjectInfo) (now : Nat)
    (c : LightweightContext) (workspacePath : String) :
    Except String LightweightContext :=
  if c.isDestroyed then
    Except.error "Cannot initialize destroyed LightweightContext instance"
  else
    let c := c.stopWatching
    if workspacePath = "" ∨ ¬ fs.existsSync workspacePath then
      Except.error ("Workspace path does not exist: " ++ workspacePath)
    else
      let c := validateWorkspacePath fs c workspacePath
      let c := { c with workspacePath := workspacePath }
      let c := loadGitignorePatterns fs c
      let c := match persisted with
        | some pi => { c with projectInfo := some pi }
        | none => c
      let c := scanWorkspace fs now c
      let c := c.startWatching
      let c := c.startMemoryMonitor
      Except.ok c

/-- The score of one cached record in `searchFiles`. -/
def searchScore (now : Nat) (queryLower : String) (f : FileInfo) : Nat :=
  let score := 0
  let score := if strContains (strToLower f.name) queryLower then score + 10 else score
  let score := if strContains (strToLower f.path) queryLower then score + 5 else score
  let score := if strContains (strToLower f.language) queryLower then score + 3 else score
  if now - f.lastModified < 86400000 then score + 5
  else if now - f.lastModified < 7 * 86400000 then score + 2
  else score

/-- `searchFiles(query, limit = 20)`: destroyed instances return `[]`;
otherwise score every cached record, keep positive scores (also writing the
transient score back onto the cached records), stable-sort descending and
take the top `limit`. -/
def searchFiles (now : Nat) (c : LightweightContext) (query : String)
    (limit : Nat := 20) : List FileInfo × LightweightContext :=
  if c.isDestroyed then ([], c)
  else
    let queryLower := strToLower query
    let results := c.fileCache.valuesList.filterMap fun f =>
      let score := searchScore now queryLower f
      if score > 0 then some { f with relevanceScore := some score } else none
    let cache' := { c.fileCache with
      cache := c.fileCache.cache.map fun p =>
        let score := searchScore now queryLower p.2.value
        if score > 0 then
          (p.1, { p.2 with value := { p.2.value with relevanceScore := some score } })
        else p }
    ((jsSortBy (fun a b =>
        decide (b.relevanceScore.getD 0 ≤ a.relevanceScore.getD 0)) results).take limit,
     { c with fileCache := cache' })

/-- `buildFileTree()`: cached records sorted by path, rendered with two-space
indentation per path component. -/
def buildFileTree (c : LightweightContext) : String :=
  let files := jsSortBy (fun a b => strLeB a.path b.path) c.fileCache.valuesList
  String.intercalate "\n" (files.map fun file =>
    let relativePath := pathRelative c.workspacePath file.path
    let depth := (strSplitOnChar '/' relativePath).length - 1
    String.join (List.replicate depth "  ") ++ file.name ++ " (" ++ file.language ++ ")")

/-- `buildContext(query, workingFiles = [], maxTokens = 2000)`: assemble the
textual summary.  It performs **no** destroyed check; the history append is
the external `workspacePersistence.addContextHistory` collaborator. -/
def buildContext (now : Nat) (c : LightweightContext) (query : String)
    (workingFiles : List String := []) (_maxTokens : Nat := 2000) :
    String × LightweightContext :=
  let context : List String := []
  let context := match c.projectInfo with
    | some pi =>
      let context := context ++ ["PROJECT: " ++ pi.type ++ " project"]
      let context := match pi.framework with
        | some fw => context ++ ["FRAMEWORK: " ++ fw]
        | none => context
      context ++ ["LANGUAGES: " ++ String.intercalate ", " pi.languages] ++ [""]
    | none => context
  let (relevantFiles, c) := searchFiles now c query 10
  let (context, c) :=
    if workingFiles.length > 0 then
      let (context, c) := workingFiles.foldl
        (fun (acc : List String × LightweightContext) filePath =>
          let (ctx, c) := acc
          let r := c.fileCache.get now filePath
          let c := { c with fileCache := r.2 }
          match r.1 with
          | some file =>
            (ctx ++ ["- " ++ pathRelative c.workspacePath filePath ++
               " (" ++ file.language ++ ")"], c)
          | none => (ctx, c))
        (context ++ ["WORKING FILES:"], c)
      (context ++ [""], c)
    else (context, c)
  let context :=
    if relevantFiles.length > 0 then
      (context ++ ["RELEVANT FILES:"] ++
        (relevantFiles.take 5).map fun file =>
          "- " ++ pathRelative c.workspacePath file.path ++ " (" ++ file.language ++
            ") - Score: " ++ toString (file.relevanceScore.getD 0)) ++ [""]
    else context
  let context := match c.projectInfo with
    | some pi =>
      if pi.totalFiles < 50 then context ++ ["FILE TREE:", c.buildFileTree]
      else context
    | none => context
  (String.intercalate "\n" context, c)

/-- `getFileContent(filePath)`: raw file text, `null` (absent) on any read
error; no destroyed check. -/
def getFileContent (fs : FS) (filePath : String) : Option String :=
  fs.readFile filePath

/-- `getStatistics()`. -/
def getStatistics (c : LightweightContext) : Option ProjectInfo := c.projectInfo

/-- `getFilesByLanguage(language)`. -/
def getFilesByLanguage (c : LightweightContext) (language : String) : List FileInfo :=
  if c.isDestroyed then []
  else c.fileCache.valuesList.filter fun f => decide (f.language = language)

/-- `getRecentFiles(hours = 24)`. -/
def getRecentFiles (now : Nat) (c : LightweightContext) (hours : Nat := 24) :
    List FileInfo :=
  if c.isDestroyed then []
  else
    let cutoff := now - hours * 60 * 60 * 1000
    jsSortBy (fun a b => decide (b.lastModified ≤ a.lastModified))
      (c.fileCache.valuesList.filter fun f => decide (f.lastModified > cutoff))

/-- `addFileToCache(filePath)` (the `add` branch of the debounced event
handler): stat; accept plain files up to 1MB that are not binary by
extension.  There is no `MAX_FILES` check on this path. -/
def addFileToCache (fs : FS) (now : Nat) (c : LightweightContext)
    (filePath : String) : LightweightContext :=
  match fs.stat filePath with
  | none => c
  | some stats =>
    if stats.isFile then
      let ext := strToLower (extnameOf filePath)
      let language := (jsMapGet languageMap ext).getD "unknown"
      if stats.size ≤ 1024 * 1024 ∧ ¬ isBinaryFile filePath then
        let fileInfo : FileInfo :=
          { path := filePath, name := basenameOf filePath, size := stats.size,
            language := language, lastModified := stats.mtimeMs,
            isDirectory := false }
        { c with fileCache := c.fileCache.set now filePath fileInfo }
      else c
    else c

/-- `removeFileFromCache(filePath)`. -/
def removeFileFromCache (c : LightweightContext) (filePath : String) :
    LightweightContext :=
  { c with fileCache := (c.fileCache.delete filePath).2 }

/-- `cleanup()`: idempotent destruction — mark destroyed, stop watching and
the monitor, clear cache, project info, callbacks and timers. -/
def cleanup (c : LightweightContext) : LightweightContext :=
  if c.isDestroyed then c
  else
    let c := { c with isDestroyed := true }
    let c := c.stopWatching
    let c := c.stopMemoryMonitor
    { c with fileCache := c.fileCache.clear, projectInfo := none,
             watcherCallbacks := [], scanDebounceTimer := false }

/-- `getCacheSize()`. -/
def getCacheSize (c : LightweightContext) : Nat := c.fileCache.size

/-- `forceCleanup()`: destroyed instances return 0 and stay untouched. -/
def forceCleanup (now : Nat) (c : LightweightContext) : Nat × LightweightContext :=
  if c.isDestroyed then (0, c)
  else
    let r := c.fileCache.forceCleanup now
    (r.1, { c with fileCache := r.2 })

/-- A sequence of `addFileToCache` calls (e.g. a burst of `add` events after
a manual refresh), all at time `now`. -/
def addFilesToCache (fs : FS) (now : Nat) (c : LightweightContext) :
    List String → LightweightContext
  | [] => c
  | p :: rest => addFilesToCache fs now (c.addFileToCache fs now p) rest

end LightweightContext

/-!  ## The Workspace Pool Manager (`WorkspaceContextManager`,
`src/electron/workspace-context-manager.ts`) -/

/-- One pooled instance (`WorkspaceContextInstance`). -/
structure WCInstance where
  context : LightweightContext
  workspacePath : String
  createdAt : Nat
  lastAccessed : Nat
  isActive : Bool

/-- The pool manager state; the constructor starts the periodic cleanup
timer. -/
structure WorkspaceContextManager where
  instances : List (String × WCInstance) := []
  currentWorkspacePath : Option String := none
  cleanupInterval : Bool := true
  MAX_INSTANCES : Nat := 5
  CLEANUP_INTERVAL : Nat := 60000
  INSTANCE_TTL : Nat := 30 * 60 * 1000

namespace WorkspaceContextManager

/-- `normalizePath(path)`: `\` → `/`, strip trailing slashes. -/
def normalizePath (p : String) : String :=
  let replaced := p.data.map fun ch => if ch = '\\' then '/' else ch
  String.mk (replaced.reverse.dropWhile fun ch => ch = '/').reverse

/-- `closeWorkspace(workspacePath)`: run the instance's own `cleanup()` (it
only mutates the context being discarded), drop it from the pool, clear the
current pointer if it was the current workspace. -/
def closeWorkspace (m : WorkspaceContextManager) (workspacePath : String) :
    WorkspaceContextManager :=
  let normalizedPath := normalizePath workspacePath
  match jsMapGet m.instances normalizedPath with
  | none => m
  | some _ =>
    let m := { m with instances := jsMapDelete m.instances normalizedPath }
    if m.currentWorkspacePath = some normalizedPath then
      { m with currentWorkspacePath := none }
    else m

/-- One `for` loop of `evictOldestInactiveInstance`: the entry satisfying the
predicate with the strictly smallest `lastAccessed` below the running
minimum, which starts at `Date.now()`. -/
def findOldestWhere (pred : String → WCInstance → Bool) (now : Nat)
    (instances : List (String × WCInstance)) : Option String × Nat :=
  instances.foldl
    (fun best p =>
      if pred p.1 p.2 ∧ p.2.lastAccessed < best.2 then (some p.1, p.2.lastAccessed)
      else best)
    (none, now)

/-- `evictOldestInactiveInstance()`: prefer the least-recently-accessed
inactive instance; failing that, the least-recently-accessed instance other
than the current one; close it if found.  (Both loops use a strict
`lastAccessed < oldestTime` comparison against an initial bound of
`Date.now()`.) -/
def evictOldestInactiveInstance (now : Nat) (m : WorkspaceContextManager) :
    WorkspaceContextManager :=
  let firstPass := findOldestWhere (fun _ inst => ¬ inst.isActive) now m.instances
  let oldestPath :=
    match firstPass.1 with
    | some p => some p
    | none =>
      (findOldestWhere (fun path _ => decide (m.currentWorkspacePath ≠ some path))
        now m.instances).1
  match oldestPath with
  | some p => closeWorkspace m p
  | none => m

/-- `getOrCreateContext(workspacePath)`: return (and refresh) an existing
instance, or evict when at `MAX_INSTANCES`, register a fresh instance,
initialize it, and unregister it again if initialization throws. -/
def getOrCreateContext (fs : FS) (persisted : Option ProjectInfo) (now : Nat)
    (m : WorkspaceContextManager) (workspacePath : String) :
    WorkspaceContextManager × Except String LightweightContext :=
  let normalizedPath := normalizePath workspacePath
  match jsMapGet m.instances normalizedPath with
  | some inst =>
    let inst := { inst with lastAccessed := now, isActive := true }
    let m := { m with instances := jsMapSet m.instances normalizedPath inst }
    let m :=
      match m.currentWorkspacePath with
      | some prev =>
        if prev ≠ normalizedPath then
          match jsMapGet m.instances prev with
          | some prevInst =>
            { m with instances :=
                jsMapSet m.instances prev { prevInst with isActive := false } }
          | none => m
        else m
      | none => m
    ({ m with currentWorkspacePath := some normalizedPath }, Except.ok inst.context)
  | none =>
    let context := LightweightContext.new
    let inst : WCInstance :=
      { context := context, workspacePath := normalizedPath,
        createdAt := now, lastAccessed := now, isActive := true }
    let m :=
      if m.instances.length ≥ m.MAX_INSTANCES then evictOldestInactiveInstance now m
      else m
    let m :=
      match m.currentWorkspacePath with
      | some prev =>
        match jsMapGet m.instances prev with
        | some prevInst =>
          { m with instances :=
              jsMapSet m.instances prev { prevInst with isActive := false } }
        | none => m
      | none => m
    let m := { m with instances := jsMapSet m.instances normalizedPath inst,
                      currentWorkspacePath := some normalizedPath }
    match LightweightContext.initCtx fs persisted now context normalizedPath with
    | Except.ok ctx' =>
      -- the stored instance aliases the context object just initialized
      ({ m with instances :=
           jsMapSet m.instances normalizedPath { inst with context := ctx' } },
       Except.ok ctx')
    | Except.error e =>
      let m := { m with instances := jsMapDelete m.instances normalizedPath }
      let m :=
        if m.currentWorkspacePath = some normalizedPath then
          { m with currentWorkspacePath := none }
        else m
      (m, Except.error e)

/-- `forceCleanup()`: close every inactive instance idle longer than the TTL,
return how many were closed. -/
def forceCleanup (now : Nat) (m : WorkspaceContextManager) :
    WorkspaceContextManager × Nat :=
  let instancesToRemove :=
    (m.instances.filter fun p =>
      decide (¬ p.2.isActive ∧ now - p.2.lastAccessed > m.INSTANCE_TTL)).map fun p => p.1
  (instancesToRemove.foldl (fun m path => closeWorkspace m path) m,
   instancesToRemove.length)

end WorkspaceContextManager

/-- A pool operation: a `getOrCreateContext` call (with its filesystem and
persisted-metadata environment), a `closeWorkspace`, or a periodic/forced
sweep. -/
inductive PoolOp : Type where
  | create (fs : FS) (persisted : Option ProjectInfo) (path : String)
  | close (path : String)
  | sweep

/-- Apply one timed pool operation. -/
def applyPoolOp (m : WorkspaceContextManager) : Nat × PoolOp → WorkspaceContextManager
  | (now, PoolOp.create fs persisted path) =>
    (WorkspaceContextManager.getOrCreateContext fs persisted now m path).1
  | (_, PoolOp.close path) => WorkspaceContextManager.closeWorkspace m path
  | (now, PoolOp.sweep) => (WorkspaceContextManager.forceCleanup now m).1

/-- Apply a timed trace of pool operations. -/
def applyPoolOps (m : WorkspaceContextManager) : List (Nat × PoolOp) → WorkspaceContextManager
  | [] => m
  | op :: rest => applyPoolOps (applyPoolOp m op) rest

/-!  ## Invariants and concrete inputs -/

/-- Representation invariant of the cache object: the access order lists
exactly the keys of the entry map, each once. -/
def LRUCache.WF {K V : Type} [DecidableEq K] (c : LRUCache K V) : Prop :=
  c.accessOrder.Nodup ∧ (c.cache.map Prod.fst).Perm c.accessOrder

/-- Pool-manager invariant at a time bound `t`: no duplicate keys, the pool
is within `MAX_INSTANCES`, the configured maximum is the source constant
regime (at least 2), every key is already normalized, and every instance was
last accessed strictly before `t`. -/
def PoolInv (t : Nat) (m : WorkspaceContextManager) : Prop :=
  (m.instances.map Prod.fst).Nodup ∧
  m.instances.length ≤ m.MAX_INSTANCES ∧
  2 ≤ m.MAX_INSTANCES ∧
  (∀ k ∈ m.instances.map Prod.fst, WorkspaceContextManager.normalizePath k = k) ∧
  (∀ p ∈ m.instances, p.2.lastAccessed < t)

/-- The operations of a timed trace happen at strictly increasing times, all
at or after the given lower bound (`Date.now()` is non-decreasing, and here
strictly increasing between successive pool operations). -/
def TimesIncreasing : Nat → List (Nat × PoolOp) → Prop
  | _, [] => True
  | t, (t', _) :: rest => t ≤ t' ∧ TimesIncreasing (t' + 1) rest

/-- C1 example scenario: `maxSize = 3`, no expiry; insert `A`, `B`, `C`,
`get("A")`, insert `D`. -/
def lruScenarioRun : LRUCache String Nat :=
  let c : LRUCache String Nat := LRUCache.new 3 1000000
  let c := c.set 0 "A" 1
  let c := c.set 1 "B" 2
  let c := c.set 2 "C" 3
  let c := (c.get 3 "A").2
  c.set 4 "D" 4

/-- A cache holding one entry `"k" ↦ 7` inserted at time 0 with
`maxSize = 3`, `maxAge = 100`. -/
def smallCache : LRUCache String Nat := (LRUCache.new 3 100).set 0 "k" 7

/-- A freshly constructed watch service. -/
def fwInit : FileWatcherService := {}

/-- A root `/big` whose shallow probe estimates 15901 files (first sampled
subdirectory holds 101 files, so the remaining 79 directories are
extrapolated at 200 each): well above the 15000 large-tree threshold. -/
def largeTreeFS : FS where
  readdir p :=
    if p = "/big" then some ("a" :: (List.range 79).map fun i => "d" ++ toString i)
    else if p = "/big/a" then some ((List.range 101).map fun i => "f" ++ toString i)
    else none
  stat p :=
    if p = "/big" ∨ p = "/big/a" ∨ strStartsWith p "/big/d" then
      some { isFile := false, isDirectory := true, size := 0, mtimeMs := 0 }
    else if strStartsWith p "/big/a/f" then
      some { isFile := true, isDirectory := false, size := 10, mtimeMs := 0 }
    else none
  readFile _ := none

/-- A filesystem on which every primitive fails. -/
def emptyFS : FS where
  readdir _ := none
  stat _ := none
  readFile _ := none

/-- A destroyed Workspace Index instance. -/
def destroyedCtx : LightweightContext := LightweightContext.new.cleanup

/-- A workspace root `/w` with three project-like subdirectories (each holds
a `package.json`), plus later-created plain files `/w/n0`, `/w/n1`, …
visible to `stat` (as produced by external tools after the initial scan). -/
def multiProjFS : FS where
  readdir p :=
    if p = "/w" then some ["p1", "p2", "p3"]
    else if p = "/w/p1" ∨ p = "/w/p2" ∨ p = "/w/p3" then some ["package.json"]
    else none
  stat p :=
    if p = "/w" ∨ p = "/w/p1" ∨ p = "/w/p2" ∨ p = "/w/p3" then
      some { isFile := false, isDirectory := true, size := 0, mtimeMs := 0 }
    else if (p = "/w/p1/package.json" ∨ p = "/w/p2/package.json" ∨
             p = "/w/p3/package.json") ∨ strStartsWith p "/w/n" then
      some { isFile := true, isDirectory := false, size := 10, mtimeMs := 0 }
    else none
  readFile _ := none

/-- 198 fresh file paths under `/w`. -/
def c6newPaths : List String :=
  (List.range 198).map fun i => "/w/n" ++ String.mk (List.replicate i 'q')

/-- The Workspace Index after `initialize("/w")` on `multiProjFS`. -/
def c6ctxAfterInit : LightweightContext :=
  match LightweightContext.initCtx multiProjFS none 0 LightweightContext.new "/w" with
  | Except.ok c => c
  | Except.error _ => LightweightContext.new

/-- That index after the 198 file-added events. -/
def c6after : LightweightContext :=
  LightweightContext.addFilesToCache multiProjFS 0 c6ctxAfterInit c6newPaths

/-- A small stable tree for manual-refresh runs: `/r/x.txt` and
`/r/sub/y.txt`. -/
def mrFS : FS where
  readdir p :=
    if p = "/r" then some ["x.txt", "sub"]
    else if p = "/r/sub" then some ["y.txt"]
    else none
  stat p :=
    if p = "/r" ∨ p = "/r/sub" then
      some { isFile := false, isDirectory := true, size := 0, mtimeMs := 0 }
    else if p = "/r/x.txt" ∨ p = "/r/sub/y.txt" then
      some { isFile := true, isDirectory := false, size := 5, mtimeMs := 0 }
    else none
  readFile _ := none

/-- Six empty, initializable workspace roots `/q0` … `/q5`. -/
def sixRootsFS : FS where
  readdir p :=
    if p ∈ (List.range 6).map (fun i => "/q" ++ toString i) then some [] else none
  stat p :=
    if p ∈ (List.range 6).map (fun i => "/q" ++ toString i) then
      some { isFile := false, isDirectory := true, size := 0, mtimeMs := 0 }
    else none
  readFile _ := none

/-- Six `getOrCreateContext` calls on distinct roots, all in the same
millisecond (`Date.now() = 0` throughout). -/
def c9trace : List (Nat × PoolOp) :=
  (List.range 6).map fun i => (0, PoolOp.create sixRootsFS none ("/q" ++ toString i))

/-!  ## Lemmas: association-list maps -/

theorem jsMapHas_iff {K V : Type} [DecidableEq K] (m : List (K × V)) (k : K) :
    jsMapHas m k = true ↔ k ∈ m.map Prod.fst := by
  simp [jsMapHas, List.any_eq_true]

theorem jsMapHas_false {K V : Type} [DecidableEq K] {m : List (K × V)} {k : K}
    (h : jsMapHas m k = false) : k ∉ m.map Prod.fst := by
  intro hk
  exact absurd ((jsMapHas_iff m k).2 hk) (by simp [h])

theorem jsMapDelete_map_fst {K V : Type} [DecidableEq K] (m : List (K × V)) (k : K) :
    (jsMapDelete m k).map Prod.fst = (m.map Prod.fst).filter (fun x => decide (x ≠ k)) := by
  induction m with
  | nil => rfl
  | cons p rest ih =>
    obtain ⟨k', v'⟩ := p
    by_cases h : k' = k <;> simp [jsMapDelete, List.filter, h] at ih ⊢ <;> exact ih

theorem jsMapDelete_length_le {K V : Type} [DecidableEq K] (m : List (K × V)) (k : K) :
    (jsMapDelete m k).length ≤ m.length :=
  List.length_filter_le _ m

theorem jsMapGet_update {K V : Type} [DecidableEq K] {m : List (K × V)} {k : K} {e : V}
    (f : V → V) (h : jsMapGet m k = some e) :
    jsMapGet (m.map fun p => if p.1 = k then (p.1, f p.2) else p) k = some (f e) := by
  induction m with
  | nil => simp [jsMapGet] at h
  | cons p rest ih =>
    obtain ⟨k', v'⟩ := p
    by_cases hp : k' = k
    · subst hp
      simp only [jsMapGet, if_pos rfl] at h
      cases h
      simp only [List.map_cons]
      simp [jsMapGet]
    · simp only [jsMapGet, if_neg hp] at h
      simp only [List.map_cons]
      rw [if_neg hp]
      simp [jsMapGet, hp, ih h]

theorem map_fst_update {K V : Type} [DecidableEq K] (m : List (K × V)) (k : K)
    (f : V → V) :
    ((m.map fun p => if p.1 = k then (p.1, f p.2) else p).map Prod.fst) = m.map Prod.fst := by
  induction m with
  | nil => rfl
  | cons p rest ih =>
    obtain ⟨k', v'⟩ := p
    by_cases h : k' = k <;> simp [h, ih]

theorem jsMapGet_none_iff {K V : Type} [DecidableEq K] (m : List (K × V)) (k : K) :
    jsMapGet m k = none ↔ k ∉ m.map Prod.fst := by
  induction m with
  | nil => simp [jsMapGet]
  | cons p rest ih =>
    obtain ⟨k', v'⟩ := p
    by_cases h : k' = k
    · simp [jsMapGet, h]
    · simp [jsMapGet, h, ih, Ne.symm h]

theorem jsMapGet_append_right {K V : Type} [DecidableEq K] {m : List (K × V)} {k : K}
    (h : jsMapGet m k = none) (v : V) : jsMapGet (m ++ [(k, v)]) k = some v := by
  induction m with
  | nil => simp [jsMapGet]
  | cons p rest ih =>
    obtain ⟨k', v'⟩ := p
    by_cases hp : k' = k
    · simp [jsMapGet, hp] at h
    · simp only [jsMapGet, hp, if_neg, if_false] at h
      simp [jsMapGet, hp, ih h]

theorem jsMapGet_jsMapSet_self {K V : Type} [DecidableEq K] (m : List (K × V))
    (k : K) (v : V) : jsMapGet (jsMapSet m k v) k = some v := by
  unfold jsMapSet
  by_cases h : jsMapHas m k = true
  · simp only [h, if_true]
    induction m with
    | nil => simp [jsMapHas] at h
    | cons p rest ih =>
      obtain ⟨k', v'⟩ := p
      by_cases hp : k' = k
      · subst hp
        simp only [List.map_cons]
        simp [jsMapGet]
      · have hr : jsMapHas rest k = true := by
          simp only [jsMapHas, List.any_cons, hp, decide_eq_true_eq] at h
          simpa [jsMapHas] using h
        simp only [List.map_cons]
        rw [if_neg hp]
        simp [jsMapGet, hp, ih hr]
  · simp only [h]
    simp only [Bool.not_eq_true] at h
    exact jsMapGet_append_right ((jsMapGet_none_iff m k).2 (jsMapHas_false h)) v

/-!  ## Lemmas: the bounded cache -/

namespace LRUCache

variable {K V : Type} [DecidableEq K]

theorem delete_maxSize (c : LRUCache K V) (k : K) :
    (c.delete k).2.maxSize = c.maxSize := by
  unfold delete
  by_cases h : jsMapHas c.cache k = true <;> simp [h]

theorem delete_maxAge (c : LRUCache K V) (k : K) :
    (c.delete k).2.maxAge = c.maxAge := by
  unfold delete
  by_cases h : jsMapHas c.cache k = true <;> simp [h]

theorem delete_size_le (c : LRUCache K V) (k : K) :
    (c.delete k).2.size ≤ c.size := by
  unfold delete size
  by_cases h : jsMapHas c.cache k = true <;> simp [h]
  exact jsMapDelete_length_le c.cache k

theorem delete_WF {c : LRUCache K V} (h : c.WF) (k : K) : (c.delete k).2.WF := by
  obtain ⟨hnd, hperm⟩ := h
  unfold delete
  by_cases hh : jsMapHas c.cache k = true <;>
    simp only [hh, if_true, if_false, Bool.false_eq_true]
  · constructor
    · exact hnd.erase k
    · show ((jsMapDelete c.cache k).map Prod.fst).Perm (c.accessOrder.erase k)
      rw [jsMapDelete_map_fst, hnd.erase_eq_filter k]
      have hfun : (fun x : K => x != k) = fun x => decide (x ≠ k) := by
        funext x
        by_cases hxk : x = k <;> simp [hxk]
      rw [hfun]
      exact hperm.filter _
  · exact ⟨hnd, hperm⟩

theorem delete_keys_subset (c : LRUCache K V) (k : K) :
    ∀ x ∈ (c.delete k).2.keysList, x ∈ c.keysList := by
  unfold delete keysList
  by_cases h : jsMapHas c.cache k = true <;>
    simp only [h, if_true, if_false, Bool.false_eq_true]
  · intro x hx
    rw [jsMapDelete_map_fst] at hx
    exact (List.mem_filter.1 hx).1
  · intro x hx
    exact hx

theorem foldl_delete_spec :
    ∀ (ks : List K) (c : LRUCache K V),
      (ks.foldl (fun c k => (c.delete k).2) c).maxSize = c.maxSize ∧
      (ks.foldl (fun c k => (c.delete k).2) c).maxAge = c.maxAge ∧
      (ks.foldl (fun c k => (c.delete k).2) c).size ≤ c.size ∧
      (c.WF → (ks.foldl (fun c k => (c.delete k).2) c).WF) ∧
      (∀ x ∈ (ks.foldl (fun c k => (c.delete k).2) c).keysList, x ∈ c.keysList) := by
  intro ks
  induction ks with
  | nil => exact fun c => ⟨rfl, rfl, le_refl _, fun h => h, fun x hx => hx⟩
  | cons k rest ih =>
    intro c
    obtain ⟨h1, h2, h3, h4, h5⟩ := ih (c.delete k).2
    refine ⟨h1.trans (delete_maxSize c k), h2.trans (delete_maxAge c k),
      h3.trans (delete_size_le c k), fun hwf => h4 (delete_WF hwf k),
      fun x hx => delete_keys_subset c k x (h5 x hx)⟩

theorem cleanupExpired_maxSize (c : LRUCache K V) (now : Nat) :
    (c.cleanupExpired now).maxSize = c.maxSize :=
  (foldl_delete_spec _ c).1

theorem cleanupExpired_maxAge (c : LRUCache K V) (now : Nat) :
    (c.cleanupExpired now).maxAge = c.maxAge :=
  (foldl_delete_spec _ c).2.1

theorem cleanupExpired_size_le (c : LRUCache K V) (now : Nat) :
    (c.cleanupExpired now).size ≤ c.size :=
  (foldl_delete_spec _ c).2.2.1

theorem cleanupExpired_WF {c : LRUCache K V} (h : c.WF) (now : Nat) :
    (c.cleanupExpired now).WF :=
  (foldl_delete_spec _ c).2.2.2.1 h

theorem cleanupExpired_keys_subset (c : LRUCache K V) (now : Nat) :
    ∀ x ∈ (c.cleanupExpired now).keysList, x ∈ c.keysList :=
  (foldl_delete_spec _ c).2.2.2.2

theorem cleanupExpired_of_no_expired {c : LRUCache K V} {now : Nat}
    (h : ∀ p ∈ c.cache, ¬ (now - p.2.timestamp > c.maxAge)) :
    c.cleanupExpired now = c := by
  unfold cleanupExpired
  have : (c.cache.filter fun p => decide (now - p.2.timestamp > c.maxAge)) = [] := by
    rw [List.filter_eq_nil_iff]
    intro p hp
    simpa using h p hp
  rw [this]
  rfl

theorem evictLoop_spec (M : Nat) :
    ∀ (order : List K) (cache : List (K × CacheEntry V)),
      order.Nodup → (cache.map Prod.fst).Perm order →
      ∃ j cache', evictLoop M cache order = (cache', order.drop j) ∧
        (cache'.map Prod.fst).Perm (order.drop j) := by
  intro order
  induction order with
  | nil =>
    intro cache _ hperm
    exact ⟨0, cache, rfl, hperm⟩
  | cons lru rest ih =>
    intro cache hnd hperm
    unfold evictLoop
    by_cases hsz : cache.length ≥ M
    · rw [if_pos hsz]
      have hnd' : rest.Nodup := hnd.of_cons
      have hlnotin : lru ∉ rest := by
        simpa using (List.nodup_cons.1 hnd).1
      have hperm' : ((jsMapDelete cache lru).map Prod.fst).Perm rest := by
        rw [jsMapDelete_map_fst]
        have h1 : ((cache.map Prod.fst).filter (fun x => decide (x ≠ lru))).Perm
            ((lru :: rest).filter (fun x => decide (x ≠ lru))) := hperm.filter _
        have h2 : (lru :: rest).filter (fun x => decide (x ≠ lru)) = rest := by
          simp only [List.filter_cons]
          rw [if_neg (by simp)]
          exact List.filter_eq_self.2 fun a ha => by
            simp only [decide_eq_true_eq]
            intro hcontra
            exact hlnotin (hcontra ▸ ha)
        rw [h2] at h1
        exact h1
      obtain ⟨j, cache', heq, hperm''⟩ := ih (jsMapDelete cache lru) hnd' hperm'
      exact ⟨j + 1, cache', heq, hperm''⟩
    · rw [if_neg hsz]
      exact ⟨0, cache, rfl, hperm⟩

theorem evictLoop_size_lt (M : Nat) (hM : 1 ≤ M) :
    ∀ (order : List K) (cache : List (K × CacheEntry V)),
      order.Nodup → (cache.map Prod.fst).Perm order →
      (evictLoop M cache order).1.length < M := by
  intro order
  induction order with
  | nil =>
    intro cache _ hperm
    have : cache.map Prod.fst = [] := List.Perm.eq_nil hperm
    have hc : cache = [] := by
      cases cache with
      | nil => rfl
      | cons p rest => simp at this
    subst hc
    simpa [evictLoop] using hM
  | cons lru rest ih =>
    intro cache hnd hperm
    unfold evictLoop
    by_cases hsz : cache.length ≥ M
    · rw [if_pos hsz]
      have hnd' : rest.Nodup := hnd.of_cons
      have hlnotin : lru ∉ rest := by
        simpa using (List.nodup_cons.1 hnd).1
      have hperm' : ((jsMapDelete cache lru).map Prod.fst).Perm rest := by
        rw [jsMapDelete_map_fst]
        have h1 := hperm.filter (fun x => decide (x ≠ lru))
        have h2 : (lru :: rest).filter (fun x => decide (x ≠ lru)) = rest := by
          simp only [List.filter_cons]
          rw [if_neg (by simp)]
          exact List.filter_eq_self.2 fun a ha => by
            simp only [decide_eq_true_eq]
            intro hcontra
            exact hlnotin (hcontra ▸ ha)
        rw [h2] at h1
        exact h1
      exact ih (jsMapDelete cache lru) hnd' hperm'
    · rw [if_neg hsz]
      exact lt_of_not_ge hsz

theorem evictLRU_eq (c : LRUCache K V) (now : Nat) :
    c.evictLeastRecentlyUsed now =
      { c.cleanupExpired now with
          cache := (evictLoop (c.cleanupExpired now).maxSize (c.cleanupExpired now).cache
            (c.cleanupExpired now).accessOrder).1,
          accessOrder := (evictLoop (c.cleanupExpired now).maxSize (c.cleanupExpired now).cache
            (c.cleanupExpired now).accessOrder).2 } := rfl

theorem evictLRU_spec {c : LRUCache K V} (h : c.WF) (now : Nat) :
    (c.evictLeastRecentlyUsed now).WF ∧
    (c.evictLeastRecentlyUsed now).maxSize = c.maxSize ∧
    (1 ≤ c.maxSize → (c.evictLeastRecentlyUsed now).size < c.maxSize) ∧
    (∀ x ∈ (c.evictLeastRecentlyUsed now).keysList, x ∈ c.keysList) := by
  have hclean := cleanupExpired_WF h now
  obtain ⟨hnd, hperm⟩ := hclean
  obtain ⟨j, cache', heq, hperm'⟩ :=
    evictLoop_spec (c.cleanupExpired now).maxSize (c.cleanupExpired now).accessOrder
      (c.cleanupExpired now).cache hnd hperm
  rw [evictLRU_eq, heq]
  refine ⟨⟨hnd.sublist (List.drop_sublist j _), hperm'⟩, cleanupExpired_maxSize c now, ?_, ?_⟩
  · intro hM
    have hlt := evictLoop_size_lt (c.cleanupExpired now).maxSize
      (by rw [cleanupExpired_maxSize]; exact hM)
      (c.cleanupExpired now).accessOrder (c.cleanupExpired now).cache hnd hperm
    rw [heq] at hlt
    simp only [size] at hlt ⊢
    have hms := cleanupExpired_maxSize c now
    omega
  · intro x hx
    apply cleanupExpired_keys_subset c now
    simp only [keysList] at hx ⊢
    have hx' : x ∈ (c.cleanupExpired now).accessOrder.drop j := hperm'.subset hx
    have hmem : x ∈ (c.cleanupExpired now).accessOrder := List.mem_of_mem_drop hx'
    exact hperm.mem_iff.2 hmem

theorem evictLRU_maxSize (c : LRUCache K V) (now : Nat) :
    (c.evictLeastRecentlyUsed now).maxSize = c.maxSize := by
  rw [evictLRU_eq]
  exact cleanupExpired_maxSize c now

theorem set_of_has {c : LRUCache K V} {k : K} (now : Nat) (v : V)
    (h : jsMapHas c.cache k = true) :
    c.set now k v =
      { c with
          cache := c.cache.map fun p =>
            if p.1 = k then
              (p.1, { value := v, timestamp := now, accessCount := p.2.accessCount + 1 })
            else p,
          accessOrder := c.accessOrder.erase k ++ [k] } := by
  unfold set
  rw [if_pos h]

theorem set_new_noevict {c : LRUCache K V} {k : K} (now : Nat) (v : V)
    (h : jsMapHas c.cache k = false) (hsz : ¬ c.cache.length ≥ c.maxSize) :
    c.set now k v =
      { c with
          cache := c.cache ++ [(k, { value := v, timestamp := now, accessCount := 1 })],
          accessOrder := c.accessOrder ++ [k] } := by
  simp only [set, h, Bool.false_eq_true, if_false, hsz]

theorem set_new_evict {c : LRUCache K V} {k : K} (now : Nat) (v : V)
    (h : jsMapHas c.cache k = false) (hsz : c.cache.length ≥ c.maxSize) :
    c.set now k v =
      { c.evictLeastRecentlyUsed now with
          cache := (c.evictLeastRecentlyUsed now).cache ++
            [(k, { value := v, timestamp := now, accessCount := 1 })],
          accessOrder := (c.evictLeastRecentlyUsed now).accessOrder ++ [k] } := by
  simp only [set, h, Bool.false_eq_true, if_false, hsz, if_true]

theorem set_maxSize (c : LRUCache K V) (now : Nat) (k : K) (v : V) :
    (c.set now k v).maxSize = c.maxSize := by
  by_cases h : jsMapHas c.cache k = true
  · rw [set_of_has now v h]
  · rw [Bool.not_eq_true] at h
    by_cases hsz : c.cache.length ≥ c.maxSize
    · rw [set_new_evict now v h hsz]
      exact evictLRU_maxSize c now
    · rw [set_new_noevict now v h hsz]

theorem nodup_append_singleton {α : Type} {l : List α} {k : α} (hnd : l.Nodup)
    (hk : k ∉ l) : (l ++ [k]).Nodup := by
  rw [List.nodup_append]
  refine ⟨hnd, List.nodup_singleton k, fun a ha hb => ?_⟩
  simp only [List.mem_singleton] at hb
  exact hk (hb ▸ ha)

theorem set_WF {c : LRUCache K V} (h : c.WF) (now : Nat) (k : K) (v : V) :
    (c.set now k v).WF := by
  obtain ⟨hnd, hperm⟩ := h
  by_cases hh : jsMapHas c.cache k = true
  · rw [set_of_has now v hh]
    have hkin : k ∈ c.accessOrder := hperm.subset ((jsMapHas_iff c.cache k).1 hh)
    constructor
    · exact nodup_append_singleton (hnd.erase k) (hnd.not_mem_erase)
    · show ((c.cache.map fun p =>
          if p.1 = k then
            (p.1, { value := v, timestamp := now, accessCount := p.2.accessCount + 1 })
          else p).map Prod.fst).Perm (c.accessOrder.erase k ++ [k])
      rw [map_fst_update c.cache k
        (fun e => { value := v, timestamp := now, accessCount := e.accessCount + 1 })]
      exact (hperm.trans (List.perm_cons_erase hkin)).trans
        (List.perm_append_singleton k _).symm
  · rw [Bool.not_eq_true] at hh
    have hknotin : k ∉ c.accessOrder := fun hk =>
      jsMapHas_false hh (hperm.mem_iff.2 hk)
    by_cases hsz : c.cache.length ≥ c.maxSize
    · rw [set_new_evict now v hh hsz]
      obtain ⟨⟨hnd', hperm'⟩, _, _, hsub⟩ := evictLRU_spec ⟨hnd, hperm⟩ now
      have hknotin' : k ∉ (c.evictLeastRecentlyUsed now).accessOrder := by
        intro hk
        exact hknotin (hperm.mem_iff.1
          (hsub k (by simpa [keysList] using hperm'.mem_iff.2 hk)))
      constructor
      · exact nodup_append_singleton hnd' hknotin'
      · show (((c.evictLeastRecentlyUsed now).cache ++
            [(k, ({ value := v, timestamp := now, accessCount := 1 } : CacheEntry V))]).map
            Prod.fst).Perm ((c.evictLeastRecentlyUsed now).accessOrder ++ [k])
        rw [List.map_append]
        exact hperm'.append_right [k]
    · rw [set_new_noevict now v hh hsz]
      constructor
      · exact nodup_append_singleton hnd hknotin
      · show ((c.cache ++
            [(k, ({ value := v, timestamp := now, accessCount := 1 } : CacheEntry V))]).map
            Prod.fst).Perm (c.accessOrder ++ [k])
        rw [List.map_append]
        exact hperm.append_right [k]

theorem set_size_le {c : LRUCache K V} (h : c.WF) (hM : 1 ≤ c.maxSize)
    (hsz : c.size ≤ c.maxSize) (now : Nat) (k : K) (v : V) :
    (c.set now k v).size ≤ c.maxSize := by
  by_cases hh : jsMapHas c.cache k = true
  · rw [set_of_has now v hh]
    simpa [size] using hsz
  · rw [Bool.not_eq_true] at hh
    by_cases hge : c.cache.length ≥ c.maxSize
    · rw [set_new_evict now v hh hge]
      have hlt := (evictLRU_spec h now).2.2.1 hM
      simp only [size, List.length_append, List.length_cons, List.length_nil] at hlt ⊢
      omega
    · rw [set_new_noevict now v hh hge]
      simp only [size, List.length_append, List.length_cons, List.length_nil] at hsz ⊢
      omega

theorem applySets_spec :
    ∀ (ops : List (Nat × K × V)) (c : LRUCache K V), c.WF → 1 ≤ c.maxSize →
      c.size ≤ c.maxSize →
      ((applySets c ops).WF ∧ (applySets c ops).maxSize = c.maxSize ∧
       (applySets c ops).size ≤ c.maxSize) := by
  intro ops
  induction ops with
  | nil => exact fun c hwf _ hsz => ⟨hwf, rfl, hsz⟩
  | cons op rest ih =>
    intro c hwf hM hsz
    obtain ⟨now, k, v⟩ := op
    have hms := set_maxSize c now k v
    obtain ⟨h1, h2, h3⟩ := ih (c.set now k v) (set_WF hwf now k v)
      (by rw [hms]; exact hM) (by rw [hms]; exact set_size_le hwf hM hsz now k v)
    exact ⟨h1, h2.trans hms, by rw [hms] at h3; exact h3⟩

theorem new_WF (maxSize maxAge : Nat) : (LRUCache.new maxSize maxAge : LRUCache K V).WF :=
  ⟨List.nodup_nil, List.Perm.refl _⟩

end LRUCache

/-!  ## Claim C1 -/

theorem lru_eviction_prefix {K V : Type} [DecidableEq K] (c : LRUCache K V)
    (now : Nat) (k : K) (v : V) (hwf : c.WF)
    (hnew : jsMapHas c.cache k = false)
    (hfresh : ∀ p ∈ c.cache, ¬ (now - p.2.timestamp > c.maxAge)) :
    ∃ j, (c.set now k v).accessOrder = c.accessOrder.drop j ++ [k] ∧
      ((c.set now k v).keysList).Perm (c.accessOrder.drop j ++ [k]) := by
  obtain ⟨hnd, hperm⟩ := hwf
  by_cases hsz : c.cache.length ≥ c.maxSize
  · rw [LRUCache.set_new_evict now v hnew hsz]
    have hclean : c.cleanupExpired now = c := LRUCache.cleanupExpired_of_no_expired hfresh
    obtain ⟨j, cache', heq, hperm'⟩ :=
      LRUCache.evictLoop_spec c.maxSize c.accessOrder c.cache hnd hperm
    have hev : c.evictLeastRecentlyUsed now =
        { c with cache := cache', accessOrder := c.accessOrder.drop j } := by
      rw [LRUCache.evictLRU_eq, hclean, heq]
    rw [hev]
    refine ⟨j, rfl, ?_⟩
    show ((cache' ++
        [(k, ({ value := v, timestamp := now, accessCount := 1 } : CacheEntry V))]).map
        Prod.fst).Perm (c.accessOrder.drop j ++ [k])
    rw [List.map_append]
    exact hperm'.append_right [k]
  · rw [LRUCache.set_new_noevict now v hnew hsz]
    refine ⟨0, by simp, ?_⟩
    show ((c.cache ++
        [(k, ({ value := v, timestamp := now, accessCount := 1 } : CacheEntry V))]).map
        Prod.fst).Perm (c.accessOrder.drop 0 ++ [k])
    rw [List.map_append, List.drop_zero]
    exact hperm.append_right [k]

/-- **C1.**  For every sequence of `set` calls on the Bounded Cache
(`LRUCache`, with any positive `maxSize`), the cache size never exceeds
`maxSize`; when inserting a new key triggers eviction, and no entry has
expired, the removed keys are exactly a least-recently-used prefix of the
recency order (the surviving keys are a suffix of the old access order plus
the new key); and in the example scenario with `maxSize = 3` and no expiry,
inserting `A`, `B`, `C`, then `get(A)`, then `set(D)` evicts exactly `B`,
leaving keys `{A, C, D}` in that stored order. -/
theorem c1_lru_bound_and_lru_eviction {K V : Type} [DecidableEq K] :
    (∀ (maxSize maxAge : Nat), 1 ≤ maxSize → ∀ ops : List (Nat × K × V),
       (LRUCache.applySets (LRUCache.new maxSize maxAge) ops).size ≤ maxSize) ∧
    (∀ (c : LRUCache K V) (now : Nat) (k : K) (v : V),
       c.WF → jsMapHas c.cache k = false →
       (∀ p ∈ c.cache, ¬ (now - p.2.timestamp > c.maxAge)) →
       ∃ j, (c.set now k v).accessOrder = c.accessOrder.drop j ++ [k] ∧
         ((c.set now k v).keysList).Perm (c.accessOrder.drop j ++ [k])) ∧
    (lruScenarioRun.size ≤ 3 ∧ lruScenarioRun.keysList = ["A", "C", "D"]) := by
  refine ⟨?_, ?_, by decide, by decide⟩
  · intro maxSize maxAge hM ops
    exact (LRUCache.applySets_spec ops (LRUCache.new maxSize maxAge)
      (LRUCache.new_WF maxSize maxAge) hM (Nat.zero_le _)).2.2
  · intro c now k v hwf hnew hfresh
    exact lru_eviction_prefix c now k v hwf hnew hfresh

/-- Witness for C1 at concrete inputs. -/
theorem c1_witness :
    ((LRUCache.applySets (LRUCache.new 3 1000000)
        [(0, "A", 1), (1, "B", 2), (2, "C", 3), (3, "D", 4)]).size ≤ 3) ∧
    (∃ j, ((smallCache.set 5 "m" 9).accessOrder = smallCache.accessOrder.drop j ++ ["m"]) ∧
      (((smallCache.set 5 "m" 9).keysList).Perm (smallCache.accessOrder.drop j ++ ["m"]))) :=
  ⟨(c1_lru_bound_and_lru_eviction (K := String) (V := Nat)).1 3 1000000 (by decide)
      [(0, "A", 1), (1, "B", 2), (2, "C", 3), (3, "D", 4)],
   (c1_lru_bound_and_lru_eviction (K := String) (V := Nat)).2.1 smallCache 5 "m" 9
     (by constructor <;> decide) (by decide) (by decide)⟩

/-!  ## Claims C8 and C10 -/

theorem jsMapGet_jsMapDelete_self {K V : Type} [DecidableEq K]
    (m : List (K × V)) (k : K) : jsMapGet (jsMapDelete m k) k = none := by
  rw [jsMapGet_none_iff, jsMapDelete_map_fst]
  intro h
  have := (List.mem_filter.1 h).2
  simp at this

theorem delete_get_none {K V : Type} [DecidableEq K] (c : LRUCache K V) (k : K) :
    jsMapGet (c.delete k).2.cache k = none := by
  unfold LRUCache.delete
  by_cases h : jsMapHas c.cache k = true <;>
    simp only [h, if_true, if_false, Bool.false_eq_true]
  · exact jsMapGet_jsMapDelete_self c.cache k
  · rw [jsMapGet_none_iff]
    exact jsMapHas_false (by simpa using h)

theorem jsMapGet_some_has {K V : Type} [DecidableEq K] {m : List (K × V)} {k : K}
    {e : V} (h : jsMapGet m k = some e) : jsMapHas m k = true := by
  by_contra hh
  rw [Bool.not_eq_true] at hh
  rw [(jsMapGet_none_iff m k).2 (jsMapHas_false hh)] at h
  cases h

/-- **C8.**  For every cache entry whose age (`now` minus its timestamp)
exceeds `maxAge` at call time, `get` returns absent and `has` returns false
— even though the entry was never explicitly deleted — and as a side effect
both calls physically remove the expired entry from the cache map. -/
theorem c8_expired_entries_absent_and_removed {K V : Type} [DecidableEq K]
    (c : LRUCache K V) (now : Nat) (k : K) (e : CacheEntry V)
    (hget : jsMapGet c.cache k = some e)
    (hexp : now - e.timestamp > c.maxAge) :
    (c.get now k).1 = none ∧ ((c.has now k).1 = false) ∧
    jsMapGet (c.get now k).2.cache k = none ∧
    jsMapGet (c.has now k).2.cache k = none := by
  unfold LRUCache.get LRUCache.has
  simp only [hget, if_pos hexp]
  exact ⟨trivial, trivial, delete_get_none c k, delete_get_none c k⟩

/-- Witness for C8: `smallCache` holds `"k"` inserted at time 0 with
`maxAge = 100`; at time 200 the entry is expired. -/
theorem c8_witness :
    (smallCache.get 200 "k").1 = none ∧ ((smallCache.has 200 "k").1 = false) ∧
    jsMapGet (smallCache.get 200 "k").2.cache "k" = none ∧
    jsMapGet (smallCache.has 200 "k").2.cache "k" = none :=
  c8_expired_entries_absent_and_removed smallCache 200 "k"
    { value := 7, timestamp := 0, accessCount := 1 } (by decide) (by decide)

/-- **C10.**  A `get` hit on a live entry and a `set` on an existing key both
reset the entry's timestamp to the current time, so expiry is measured from
the last access or update, not from insertion; consequently an entry
re-checked within `maxAge` of its last live access is still present. -/
theorem c10_access_refreshes_expiry {K V : Type} [DecidableEq K] :
    (∀ (c : LRUCache K V) (now : Nat) (k : K) (e : CacheEntry V),
       jsMapGet c.cache k = some e → ¬ (now - e.timestamp > c.maxAge) →
       jsMapGet (c.get now k).2.cache k =
         some { e with timestamp := now, accessCount := e.accessCount + 1 }) ∧
    (∀ (c : LRUCache K V) (now : Nat) (k : K) (v : V) (e : CacheEntry V),
       jsMapGet c.cache k = some e →
       jsMapGet (c.set now k v).cache k =
         some { value := v, timestamp := now, accessCount := e.accessCount + 1 }) ∧
    (∀ (c : LRUCache K V) (now t : Nat) (k : K) (e : CacheEntry V),
       jsMapGet c.cache k = some e → ¬ (now - e.timestamp > c.maxAge) →
       t - now ≤ c.maxAge → ((c.get now k).2.has t k).1 = true) := by
  have hget_upd : ∀ (c : LRUCache K V) (now : Nat) (k : K) (e : CacheEntry V),
      jsMapGet c.cache k = some e → ¬ (now - e.timestamp > c.maxAge) →
      jsMapGet (c.get now k).2.cache k =
        some { e with timestamp := now, accessCount := e.accessCount + 1 } := by
    intro c now k e hget hlive
    unfold LRUCache.get
    simp only [hget, if_neg hlive]
    exact jsMapGet_update
      (fun _ => { e with timestamp := now, accessCount := e.accessCount + 1 }) hget
  refine ⟨hget_upd, ?_, ?_⟩
  · intro c now k v e hget
    rw [LRUCache.set_of_has now v (jsMapGet_some_has hget)]
    exact jsMapGet_update
      (fun x => { value := v, timestamp := now, accessCount := x.accessCount + 1 }) hget
  · intro c now t k e hget hlive ht
    have hupd := hget_upd c now k e hget hlive
    unfold LRUCache.has
    rw [hupd]
    have hmax : (c.get now k).2.maxAge = c.maxAge := by
      unfold LRUCache.get
      simp only [hget, if_neg hlive]
    simp only [hmax]
    rw [if_neg (by simp only [Nat.not_lt]; omega)]

/-- Witness for C10: live `get` at time 50 on `smallCache`, `set` on the
existing key, and a `has` at time 150 (within `maxAge = 100` of the access). -/
theorem c10_witness :
    jsMapGet (smallCache.get 50 "k").2.cache "k" =
      some { value := 7, timestamp := 50, accessCount := 2 } ∧
    jsMapGet (smallCache.set 60 "k" 8).cache "k" =
      some { value := 8, timestamp := 60, accessCount := 2 } ∧
    ((smallCache.get 50 "k").2.has 150 "k").1 = true :=
  ⟨(c10_access_refreshes_expiry (K := String) (V := Nat)).1 smallCache 50 "k"
     { value := 7, timestamp := 0, accessCount := 1 } (by decide) (by decide),
   (c10_access_refreshes_expiry (K := String) (V := Nat)).2.1 smallCache 60 "k" 8
     { value := 7, timestamp := 0, accessCount := 1 } (by decide),
   (c10_access_refreshes_expiry (K := String) (V := Nat)).2.2 smallCache 50 150 "k"
     { value := 7, timestamp := 0, accessCount := 1 } (by decide) (by decide) (by decide)⟩

/-!  ## Claims C2 and C3 -/

/-- **C2.**  Every call to the Watch Service's `watchDirectory`, for every
service state, directory path and options, returns immediately after
emitting a `directory:skipped` notification with reason
`emergency_disabled`: it never invokes the native watch primitive, never
registers an entry in the watcher map, and never changes the watcher count
(or any other service state), regardless of directory size, strategy
setting, or fallback state. -/
theorem c2_watchDirectory_emergency_disabled :
    ∀ (s : FileWatcherService) (dirPath : String) (opts : WatchOptions),
      (FileWatcherService.watchDirectory s dirPath opts).1 = s ∧
      (FileWatcherService.watchDirectory s dirPath opts).2 =
        [FWEffect.emitSkipped dirPath "emergency_disabled"] ∧
      (FileWatcherService.watchDirectory s dirPath opts).1.watchers = s.watchers ∧
      (FileWatcherService.watchDirectory s dirPath opts).1.watcherCount = s.watcherCount ∧
      (∀ d, FWEffect.nativeWatchCall d ∉
        (FileWatcherService.watchDirectory s dirPath opts).2) := by
  intro s dirPath opts
  refine ⟨rfl, rfl, rfl, rfl, fun d hd => ?_⟩
  simp [FileWatcherService.watchDirectory] at hd

/-- **C3** (code bug).  A root whose estimated file count (15901) exceeds
the 15000 large-tree threshold is *not* given an inert bookkeeping entry:
the emergency early return fires first, so `watchDirectory` emits only the
`directory:skipped` notification, registers nothing in the watcher map,
and leaves the watcher count at 0 (no native watch call is issued either,
but not for the reason the claim gives). -/
theorem c3_large_tree_not_registered :
    FileWatcherService.getDirectoryStats largeTreeFS "/big" = 15901 ∧
    15901 > 15000 ∧
    (FileWatcherService.watchDirectory fwInit "/big" {}).1.watcherCount = 0 ∧
    (FileWatcherService.watchDirectory fwInit "/big" {}).1.watchers = [] ∧
    jsMapHas (FileWatcherService.watchDirectory fwInit "/big" {}).1.watchers "/big"
      = false ∧
    (FileWatcherService.watchDirectory fwInit "/big" {}).2 =
      [FWEffect.emitSkipped "/big" "emergency_disabled"] := by
  refine ⟨by decide, by decide, rfl, rfl, rfl, rfl⟩

/-!  ## Claim C4 -/

theorem unwatch_preserves (s : FileWatcherService) (dirPath : String) :
    (FileWatcherService.unwatchDirectory s dirPath).failedDirectories =
      s.failedDirectories ∧
    (FileWatcherService.unwatchDirectory s dirPath).maxRetryAttempts =
      s.maxRetryAttempts ∧
    (FileWatcherService.unwatchDirectory s dirPath).retryDelay = s.retryDelay := by
  unfold FileWatcherService.unwatchDirectory
  split <;> exact ⟨rfl, rfl, rfl⟩

theorem foldl_unwatch_preserves :
    ∀ (l : List (String × Option Unit)) (s : FileWatcherService),
      ((l.foldl (fun s p => FileWatcherService.unwatchDirectory s p.1) s).failedDirectories
        = s.failedDirectories) ∧
      ((l.foldl (fun s p => FileWatcherService.unwatchDirectory s p.1) s).maxRetryAttempts
        = s.maxRetryAttempts) ∧
      ((l.foldl (fun s p => FileWatcherService.unwatchDirectory s p.1) s).retryDelay
        = s.retryDelay) := by
  intro l
  induction l with
  | nil => exact fun s => ⟨rfl, rfl, rfl⟩
  | cons p rest ih =>
    intro s
    obtain ⟨h1, h2, h3⟩ := ih (FileWatcherService.unwatchDirectory s p.1)
    obtain ⟨g1, g2, g3⟩ := unwatch_preserves s p.1
    exact ⟨h1.trans g1, h2.trans g2, h3.trans g3⟩

theorem pac_preserves (s : FileWatcherService) :
    (FileWatcherService.performAggressiveCleanup s).failedDirectories =
      s.failedDirectories ∧
    (FileWatcherService.performAggressiveCleanup s).maxRetryAttempts =
      s.maxRetryAttempts ∧
    (FileWatcherService.performAggressiveCleanup s).retryDelay = s.retryDelay := by
  unfold FileWatcherService.performAggressiveCleanup
  exact foldl_unwatch_preserves _ s

/-- **C4** (counterexample).  Three consecutive EMFILE errors on the same
root `/r`: the root is *not* in the failed-directory set afterwards, the
service is not in fallback, and every one of the three calls — including
the third — scheduled another automatic retry. -/
theorem c4_counterexample :
    (FileWatcherService.applyEMFILEErrors "/r" "EMFILE" 3 fwInit).1.failedDirectories
      = [] ∧
    (FileWatcherService.applyEMFILEErrors "/r" "EMFILE" 3 fwInit).1.fallbackMode
      = false ∧
    (FileWatcherService.applyEMFILEErrors "/r" "EMFILE" 3 fwInit).2 =
      [FWEffect.scheduleRetry "/r" 1000, FWEffect.scheduleRetry "/r" 1000,
       FWEffect.scheduleRetry "/r" 1000] :=
  ⟨by decide, by decide, by decide⟩

/-- **C4** (amended).  `handleEMFILEError` never touches the
failed-directory set.  While the root's recorded retry count (after the
unwatch and aggressive cleanup, which clear the count for unwatched roots)
is below `maxRetryAttempts = 3` it schedules another retry and increments
the count — so retries are scheduled on each of the first three consecutive
errors — and once the count reaches 3 it emits an error and *deletes* the
retry counter, so a later EMFILE error on the same root starts a fresh
retry cycle; the root is never marked permanently failed. -/
theorem c4_amended (s : FileWatcherService) (dirPath msg : String)
    (hmra : s.maxRetryAttempts = 3) :
    (FileWatcherService.handleEMFILEError s dirPath msg).1.failedDirectories =
      s.failedDirectories ∧
    (((jsMapGet (FileWatcherService.performAggressiveCleanup
        (FileWatcherService.unwatchDirectory s dirPath)).emfileRetryAttempts
        dirPath).getD 0 < 3) →
      (FileWatcherService.handleEMFILEError s dirPath msg).2 =
        [FWEffect.scheduleRetry dirPath s.retryDelay] ∧
      jsMapGet (FileWatcherService.handleEMFILEError s dirPath msg).1.emfileRetryAttempts
        dirPath =
        some ((jsMapGet (FileWatcherService.performAggressiveCleanup
          (FileWatcherService.unwatchDirectory s dirPath)).emfileRetryAttempts
          dirPath).getD 0 + 1)) ∧
    (¬ ((jsMapGet (FileWatcherService.performAggressiveCleanup
        (FileWatcherService.unwatchDirectory s dirPath)).emfileRetryAttempts
        dirPath).getD 0 < 3) →
      (FileWatcherService.handleEMFILEError s dirPath msg).2 =
        [FWEffect.emitError dirPath msg] ∧
      jsMapGet (FileWatcherService.handleEMFILEError s dirPath msg).1.emfileRetryAttempts
        dirPath = none) := by
  obtain ⟨g1, g2, g3⟩ := unwatch_preserves s dirPath
  obtain ⟨f1, f2, f3⟩ := pac_preserves (FileWatcherService.unwatchDirectory s dirPath)
  unfold FileWatcherService.handleEMFILEError
  set s' := FileWatcherService.performAggressiveCleanup
    (FileWatcherService.unwatchDirectory s dirPath) with hs'
  have hmra' : s'.maxRetryAttempts = 3 := (f2.trans g2).trans hmra
  have hrd' : s'.retryDelay = s.retryDelay := f3.trans g3
  have hfd' : s'.failedDirectories = s.failedDirectories := f1.trans g1
  by_cases hn : (jsMapGet s'.emfileRetryAttempts dirPath).getD 0 < 3
  · rw [if_pos (by rw [hmra']; exact hn)]
    refine ⟨hfd', fun _ => ⟨by rw [hrd'], ?_⟩, fun hcontra => absurd hn hcontra⟩
    exact jsMapGet_jsMapSet_self _ _ _
  · rw [if_neg (by rw [hmra']; exact hn)]
    refine ⟨hfd', fun hcontra => absurd hcontra hn, fun _ => ⟨rfl, ?_⟩⟩
    exact jsMapGet_jsMapDelete_self _ _

/-- Witness for C4 (amended): a fresh service (retry count 0) schedules a
retry and does not touch the failed set; a service that has already
recorded 3 attempts gives up and erases the counter. -/
theorem c4_amended_witness :
    ((FileWatcherService.handleEMFILEError fwInit "/r" "EMFILE").1.failedDirectories
      = [] ∧
     (FileWatcherService.handleEMFILEError fwInit "/r" "EMFILE").2 =
      [FWEffect.scheduleRetry "/r" 1000]) ∧
    ((FileWatcherService.handleEMFILEError
        (FileWatcherService.applyEMFILEErrors "/r" "EMFILE" 3 fwInit).1 "/r" "EMFILE").2 =
      [FWEffect.emitError "/r" "EMFILE"]) := by
  have h1 := c4_amended fwInit "/r" "EMFILE" rfl
  have h2 := c4_amended (FileWatcherService.applyEMFILEErrors "/r" "EMFILE" 3 fwInit).1
    "/r" "EMFILE" (by decide)
  exact ⟨⟨h1.1, (h1.2.1 (by decide)).1⟩, (h2.2.2 (by decide)).1⟩

/-!  ## Claim C5 -/

/-- **C5** (counterexample).  Calling `initialize` on a destroyed Workspace
Index does not return an inert result: it checks the destroyed flag and
**throws** (`Cannot initialize destroyed LightweightContext instance`). -/
theorem c5_counterexample :
    destroyedCtx.isDestroyed = true ∧
    LightweightContext.initCtx emptyFS none 0 destroyedCtx "/w" =
      Except.error "Cannot initialize destroyed LightweightContext instance" :=
  ⟨rfl, rfl⟩

/-- **C5** (amended).  On a destroyed Workspace Index, `searchFiles`,
`getFilesByLanguage`, `getRecentFiles`, `forceCleanup` and `cleanup` check
the destroyed flag and return inert results (`[]`, `0`, no-op), but
`initialize` checks the flag and **throws**, while `buildContext` and
`getFileContent` perform no destroyed check at all — `buildContext` still
assembles output (a non-empty string when working files are supplied) and
`getFileContent` simply reads, returning absent only on read failure. -/
theorem c5_amended :
    (∀ (fs : FS) (persisted : Option ProjectInfo) (now : Nat)
       (c : LightweightContext) (wp : String), c.isDestroyed = true →
       LightweightContext.initCtx fs persisted now c wp =
         Except.error "Cannot initialize destroyed LightweightContext instance") ∧
    (∀ (now : Nat) (c : LightweightContext) (q : String) (lim : Nat),
       c.isDestroyed = true → LightweightContext.searchFiles now c q lim = ([], c)) ∧
    (∀ (c : LightweightContext), c.isDestroyed = true → c.cleanup = c) ∧
    (∀ (now : Nat) (c : LightweightContext), c.isDestroyed = true →
       LightweightContext.forceCleanup now c = (0, c)) ∧
    (∀ (c : LightweightContext) (lang : String), c.isDestroyed = true →
       c.getFilesByLanguage lang = []) ∧
    (∀ (now : Nat) (c : LightweightContext) (hrs : Nat), c.isDestroyed = true →
       LightweightContext.getRecentFiles now c hrs = []) ∧
    ((LightweightContext.buildContext 0 destroyedCtx "query" ["x"] 2000).1 =
       "WORKING FILES:\n") ∧
    (∀ (fs : FS) (p : String), LightweightContext.getFileContent fs p = fs.readFile p) := by
  refine ⟨?_, ?_, ?_, ?_, ?_, ?_, by decide, fun fs p => rfl⟩
  · intro fs persisted now c wp h
    unfold LightweightContext.initCtx
    rw [if_pos h]
  · intro now c q lim h
    unfold LightweightContext.searchFiles
    rw [if_pos h]
  · intro c h
    unfold LightweightContext.cleanup
    rw [if_pos h]
  · intro now c h
    unfold LightweightContext.forceCleanup
    rw [if_pos h]
  · intro c lang h
    unfold LightweightContext.getFilesByLanguage
    rw [if_pos h]
  · intro now c hrs h
    unfold LightweightContext.getRecentFiles
    rw [if_pos h]

/-- Witness for C5 (amended) at the concrete destroyed instance. -/
theorem c5_amended_witness :
    LightweightContext.initCtx emptyFS none 7 destroyedCtx "/z" =
      Except.error "Cannot initialize destroyed LightweightContext instance" ∧
    LightweightContext.searchFiles 7 destroyedCtx "q" 20 = ([], destroyedCtx) ∧
    destroyedCtx.cleanup = destroyedCtx ∧
    LightweightContext.forceCleanup 7 destroyedCtx = (0, destroyedCtx) ∧
    destroyedCtx.getFilesByLanguage "json" = [] ∧
    LightweightContext.getRecentFiles 7 destroyedCtx 24 = [] := by
  refine ⟨c5_amended.1 emptyFS none 7 destroyedCtx "/z" rfl,
    c5_amended.2.1 7 destroyedCtx "q" 20 rfl,
    c5_amended.2.2.1 destroyedCtx rfl,
    c5_amended.2.2.2.1 7 destroyedCtx rfl,
    c5_amended.2.2.2.2.1 destroyedCtx "json" rfl,
    c5_amended.2.2.2.2.2.1 7 destroyedCtx 24 rfl⟩

/-!  ## Claim C6 -/

theorem evictLoop_size_le {K V : Type} [DecidableEq K] (M : Nat) :
    ∀ (order : List K) (cache : List (K × CacheEntry V)),
      (LRUCache.evictLoop M cache order).1.length ≤ cache.length := by
  intro order
  induction order with
  | nil => intro cache; exact le_refl _
  | cons lru rest ih =>
    intro cache
    unfold LRUCache.evictLoop
    by_cases hsz : cache.length ≥ M
    · rw [if_pos hsz]
      exact (ih (jsMapDelete cache lru)).trans (jsMapDelete_length_le cache lru)
    · rw [if_neg hsz]

theorem evictLRU_size_le {K V : Type} [DecidableEq K] (c : LRUCache K V) (now : Nat) :
    (c.evictLeastRecentlyUsed now).size ≤ c.size := by
  rw [LRUCache.evictLRU_eq]
  exact (evictLoop_size_le _ _ _).trans (LRUCache.cleanupExpired_size_le c now)

theorem set_size_le_succ {K V : Type} [DecidableEq K] (c : LRUCache K V)
    (now : Nat) (k : K) (v : V) : (c.set now k v).size ≤ c.size + 1 := by
  by_cases hh : jsMapHas c.cache k = true
  · rw [LRUCache.set_of_has now v hh]
    simp [LRUCache.size]
  · rw [Bool.not_eq_true] at hh
    by_cases hsz : c.cache.length ≥ c.maxSize
    · rw [LRUCache.set_new_evict now v hh hsz]
      have := evictLRU_size_le c now
      simp only [LRUCache.size, List.length_append, List.length_cons,
        List.length_nil] at this ⊢
      omega
    · rw [LRUCache.set_new_noevict now v hh hsz]
      simp [LRUCache.size]

theorem foldl_preserves {α β : Type} {P : β → Prop} (step : β → α → β)
    (h : ∀ b a, P b → P (step b a)) :
    ∀ (l : List α) (b : β), P b → P (l.foldl step b) := by
  intro l
  induction l with
  | nil => exact fun b hb => hb
  | cons a rest ih => exact fun b hb => ih (step b a) (h b a hb)

theorem scanDirGo_bound (fs : FS) (now M S : Nat) :
    ∀ (gas : Nat) (c : LightweightContext) (dirPath : String),
      c.MAX_FILES = M → c.fileCache.maxSize = S → c.fileCache.size ≤ M →
      ((LightweightContext.scanDirGo fs now gas c dirPath).1.MAX_FILES = M ∧
       (LightweightContext.scanDirGo fs now gas c dirPath).1.fileCache.maxSize = S ∧
       (LightweightContext.scanDirGo fs now gas c dirPath).1.fileCache.size ≤ M) := by
  intro gas
  induction gas with
  | zero => exact fun c dirPath h1 h2 h3 => ⟨h1, h2, h3⟩
  | succ gas ih =>
    intro c dirPath h1 h2 h3
    unfold LightweightContext.scanDirGo
    by_cases hd : c.isDestroyed = true
    · simp only [hd, if_true]
      exact ⟨h1, h2, h3⟩
    · rw [Bool.not_eq_true] at hd
      simp only [hd, Bool.false_eq_true, if_false]
      by_cases hig : c.shouldIgnore (pathRelative c.workspacePath dirPath) = true
      · simp only [hig, if_true]
        exact ⟨h1, h2, h3⟩
      · rw [Bool.not_eq_true] at hig
        simp only [hig, Bool.false_eq_true, if_false]
        by_cases hex : fs.existsSync dirPath = true
        · simp only [hex, Bool.not_true, Bool.false_eq_true, if_false]
          cases hrd : fs.readdir dirPath with
          | none => exact ⟨h1, h2, h3⟩
          | some entries =>
            refine foldl_preserves
              (P := fun a : LightweightContext × List FileInfo =>
                a.1.MAX_FILES = M ∧ a.1.fileCache.maxSize = S ∧ a.1.fileCache.size ≤ M)
              _ ?_ entries (c, []) ⟨h1, h2, h3⟩
            rintro ⟨cc, files⟩ entry ⟨g1, g2, g3⟩
            dsimp only
            cases hst : fs.stat (pathJoin dirPath entry) with
            | none => exact ⟨g1, g2, g3⟩
            | some stats =>
              by_cases hdir : stats.isDirectory = true
              · simp only [hdir, if_true]
                exact ih cc (pathJoin dirPath entry) g1 g2 g3
              · rw [Bool.not_eq_true] at hdir
                simp only [hdir, Bool.false_eq_true, if_false]
                by_cases hbig : stats.size > cc.MAX_FILE_SIZE ∨
                    LightweightContext.isBinaryFile entry = true
                · simp only [if_pos hbig]
                  exact ⟨g1, g2, g3⟩
                · simp only [if_neg hbig]
                  by_cases hfull : cc.fileCache.size ≥ cc.MAX_FILES
                  · simp only [if_pos hfull]
                    exact ⟨g1, g2, g3⟩
                  · simp only [if_neg hfull]
                    refine ⟨g1, ?_, ?_⟩
                    · show (cc.fileCache.set now (pathJoin dirPath entry) _).maxSize = S
                      rw [LRUCache.set_maxSize]
                      exact g2
                    · show (cc.fileCache.set now (pathJoin dirPath entry) _).size ≤ M
                      have hle := set_size_le_succ cc.fileCache now (pathJoin dirPath entry)
                        { path := pathJoin dirPath entry, name := entry,
                          size := stats.size,
                          language := (jsMapGet languageMap
                            (strToLower (extnameOf entry))).getD "unknown",
                          lastModified := stats.mtimeMs, isDirectory := false }
                      rw [g1] at hfull
                      omega
        · rw [Bool.not_eq_true] at hex
          simp only [hex, Bool.false_eq_true, not_false_iff, if_true]
          exact ⟨h1, h2, h3⟩

theorem validate_multi {fs : FS} {c : LightweightContext} {wp : String}
    {entries : List String} {n : Nat}
    (he : fs.readdir wp = some entries)
    (hcount : LightweightContext.countProjectLikeDirs fs c wp entries 0 = some n)
    (h3 : n ≥ 3) :
    LightweightContext.validateWorkspacePath fs c wp =
      { c with MAX_FILES := min c.MAX_FILES 200 } := by
  unfold LightweightContext.validateWorkspacePath
  simp only [he, hcount]
  rw [if_pos h3]

theorem gitignore_MAX (fs : FS) (c : LightweightContext) :
    (LightweightContext.loadGitignorePatterns fs c).MAX_FILES = c.MAX_FILES := by
  unfold LightweightContext.loadGitignorePatterns
  dsimp only
  split
  · split <;> rfl
  · rfl

theorem gitignore_fileCache (fs : FS) (c : LightweightContext) :
    (LightweightContext.loadGitignorePatterns fs c).fileCache = c.fileCache := by
  unfold LightweightContext.loadGitignorePatterns
  dsimp only
  split
  · split <;> rfl
  · rfl

theorem gitignore_isDestroyed (fs : FS) (c : LightweightContext) :
    (LightweightContext.loadGitignorePatterns fs c).isDestroyed = c.isDestroyed := by
  unfold LightweightContext.loadGitignorePatterns
  dsimp only
  split
  · split <;> rfl
  · rfl

theorem startWatching_MAX (c : LightweightContext) :
    (c.startWatching).MAX_FILES = c.MAX_FILES := by
  unfold LightweightContext.startWatching
  split <;> rfl

theorem startWatching_fileCache (c : LightweightContext) :
    (c.startWatching).fileCache = c.fileCache := by
  unfold LightweightContext.startWatching
  split <;> rfl

theorem startMemoryMonitor_MAX (c : LightweightContext) :
    (c.startMemoryMonitor).MAX_FILES = c.MAX_FILES := by
  unfold LightweightContext.startMemoryMonitor
  split <;> rfl

theorem startMemoryMonitor_fileCache (c : LightweightContext) :
    (c.startMemoryMonitor).fileCache = c.fileCache := by
  unfold LightweightContext.startMemoryMonitor
  split <;> rfl

theorem scanWorkspace_fields (fs : FS) (now : Nat) (c : LightweightContext)
    (hd : c.isDestroyed = false) :
    (LightweightContext.scanWorkspace fs now c).MAX_FILES =
      (LightweightContext.scanDirGo fs now 9
        { c with fileCache := c.fileCache.clear } c.workspacePath).1.MAX_FILES ∧
    (LightweightContext.scanWorkspace fs now c).fileCache =
      (LightweightContext.scanDirGo fs now 9
        { c with fileCache := c.fileCache.clear } c.workspacePath).1.fileCache := by
  unfold LightweightContext.scanWorkspace LightweightContext.scanDirectory
  simp only [hd, Bool.false_eq_true, if_false, Nat.sub_zero]
  exact ⟨trivial, trivial⟩

theorem postscan_fields (fs : FS) (now : Nat) (X : LightweightContext) (S : Nat)
    (hdX : X.isDestroyed = false) (hXM : X.MAX_FILES = 200)
    (hXS : X.fileCache.maxSize = S) :
    ((LightweightContext.scanWorkspace fs now X).startWatching).startMemoryMonitor.MAX_FILES
      = 200 ∧
    ((LightweightContext.scanWorkspace fs now X).startWatching).startMemoryMonitor.fileCache.maxSize
      = S ∧
    ((LightweightContext.scanWorkspace fs now X).startWatching).startMemoryMonitor.fileCache.size
      ≤ 200 := by
  obtain ⟨hs1, hs2⟩ := scanWorkspace_fields fs now X hdX
  obtain ⟨hb1, hb2, hb3⟩ := scanDirGo_bound fs now 200 S 9
    { X with fileCache := X.fileCache.clear } X.workspacePath hXM
    (by show (X.fileCache.clear).maxSize = S; exact hXS)
    (by show (X.fileCache.clear).size ≤ 200; simp [LRUCache.clear, LRUCache.size])
  refine ⟨?_, ?_, ?_⟩
  · rw [startMemoryMonitor_MAX, startWatching_MAX, hs1]
    exact hb1
  · rw [startMemoryMonitor_fileCache, startWatching_fileCache, hs2]
    exact hb2
  · rw [startMemoryMonitor_fileCache, startWatching_fileCache, hs2]
    exact hb3

/-- **C6** (amended).  If the probe of `initialize` finds ≥ 3 project-like
immediate subdirectories, only the *scan limit* `MAX_FILES` is lowered
(from the default 300 to 200) before scanning — the already-constructed LRU
cache keeps its own capacity (`maxSize` unchanged) — and at the end of a
successful `initialize` the cache holds at most 200 entries, because the
scan stops accepting files at `MAX_FILES`.  (Entries added later through
the file-change path are not subject to the lowered limit; see the
counterexample.) -/
theorem c6_amended (fs : FS) (persisted : Option ProjectInfo) (now : Nat)
    (c : LightweightContext) (wp : String) (c' : LightweightContext)
    (entries : List String) (n : Nat)
    (hM : c.MAX_FILES = 300)
    (he : fs.readdir wp = some entries)
    (hcount : LightweightContext.countProjectLikeDirs fs c.stopWatching wp entries 0
      = some n)
    (h3 : n ≥ 3)
    (hok : LightweightContext.initCtx fs persisted now c wp = Except.ok c') :
    c'.MAX_FILES = 200 ∧ c'.fileCache.maxSize = c.fileCache.maxSize ∧
    c'.fileCache.size ≤ 200 := by
  have hd : c.isDestroyed = false := by
    by_contra hcon
    rw [Bool.not_eq_false] at hcon
    unfold LightweightContext.initCtx at hok
    rw [if_pos hcon] at hok
    cases hok
  have hdm : ¬ c.isDestroyed = true := by rw [hd]; exact Bool.false_ne_true
  have hguard : ¬ (wp = "" ∨ ¬ fs.existsSync wp = true) := by
    intro hg
    unfold LightweightContext.initCtx at hok
    rw [if_neg hdm] at hok
    simp only [hg, ite_true] at hok
    exact Except.noConfusion hok
  unfold LightweightContext.initCtx at hok
  rw [if_neg hdm] at hok
  simp only [hguard, ite_false] at hok
  rw [Except.ok.injEq] at hok
  subst hok
  have hvalE := validate_multi (c := c.stopWatching) he hcount h3
  have hvalM : (LightweightContext.validateWorkspacePath fs c.stopWatching wp).MAX_FILES
      = 200 := by
    rw [hvalE]
    show min (c.stopWatching).MAX_FILES 200 = 200
    have hsw : (c.stopWatching).MAX_FILES = c.MAX_FILES := rfl
    rw [hsw, hM]
    decide
  have hvalF : (LightweightContext.validateWorkspacePath fs c.stopWatching wp).fileCache
      = c.fileCache := by
    rw [hvalE]
    rfl
  have hvalD : (LightweightContext.validateWorkspacePath fs c.stopWatching wp).isDestroyed
      = false := by
    rw [hvalE]
    exact hd
  cases persisted with
  | none =>
    refine postscan_fields fs now _ c.fileCache.maxSize ?_ ?_ ?_
    · rw [gitignore_isDestroyed]
      exact hvalD
    · rw [gitignore_MAX]
      exact hvalM
    · rw [gitignore_fileCache]
      show (LightweightContext.validateWorkspacePath fs c.stopWatching wp).fileCache.maxSize
        = c.fileCache.maxSize
      rw [hvalF]
  | some pi =>
    refine postscan_fields fs now _ c.fileCache.maxSize ?_ ?_ ?_
    · show (LightweightContext.loadGitignorePatterns fs _).isDestroyed = false
      rw [gitignore_isDestroyed]
      exact hvalD
    · show (LightweightContext.loadGitignorePatterns fs _).MAX_FILES = 200
      rw [gitignore_MAX]
      exact hvalM
    · show (LightweightContext.loadGitignorePatterns fs _).fileCache.maxSize
        = c.fileCache.maxSize
      rw [gitignore_fileCache]
      show (LightweightContext.validateWorkspacePath fs c.stopWatching wp).fileCache.maxSize
        = c.fileCache.maxSize
      rw [hvalF]

theorem addFileToCache_accept (fs : FS) (now : Nat) (c : LightweightContext)
    (p : String) (stats : FSStat)
    (hs : fs.stat p = some stats) (hf : stats.isFile = true)
    (hsz : stats.size ≤ 1024 * 1024) (hb : LightweightContext.isBinaryFile p = false) :
    (c.addFileToCache fs now p).fileCache =
      c.fileCache.set now p
        { path := p, name := basenameOf p, size := stats.size,
          language := (jsMapGet languageMap (strToLower (extnameOf p))).getD "unknown",
          lastModified := stats.mtimeMs, isDirectory := false } := by
  unfold LightweightContext.addFileToCache
  rw [hs]
  dsimp only
  rw [if_pos hf]
  have hcond : stats.size ≤ 1024 * 1024 ∧ ¬ LightweightContext.isBinaryFile p = true := by
    constructor
    · exact hsz
    · simp [hb]
  rw [if_pos hcond]

theorem addFilesToCache_size (fs : FS) (now : Nat) :
    ∀ (ps : List String) (c : LightweightContext),
      (∀ p ∈ ps, jsMapHas c.fileCache.cache p = false) →
      ps.Nodup →
      (∀ p ∈ ps, ((fs.stat p).map fun stats =>
          stats.isFile && decide (stats.size ≤ 1024 * 1024) &&
            ! LightweightContext.isBinaryFile p).getD false = true) →
      c.fileCache.size + ps.length ≤ c.fileCache.maxSize →
      (LightweightContext.addFilesToCache fs now c ps).fileCache.size
        = c.fileCache.size + ps.length
  | [], c, _, _, _, _ => by
    simp [LightweightContext.addFilesToCache]
  | p :: rest, c, hfresh, hnd, hacc, hcap => by
    obtain ⟨hpnotin, hndrest⟩ := List.nodup_cons.mp hnd
    have hap := hacc p (List.mem_cons_self p rest)
    cases hstat : fs.stat p with
    | none =>
      rw [hstat] at hap
      simp at hap
    | some stats =>
      rw [hstat] at hap
      simp only [Option.map_some', Option.getD_some, Bool.and_eq_true,
        decide_eq_true_eq, Bool.not_eq_true'] at hap
      obtain ⟨⟨hf, hsz⟩, hb⟩ := hap
      have hacc' := addFileToCache_accept fs now c p stats hstat hf hsz hb
      have hfr : jsMapHas c.fileCache.cache p = false :=
        hfresh p (List.mem_cons_self p rest)
      have hszlt : ¬ c.fileCache.cache.length ≥ c.fileCache.maxSize := by
        simp only [LRUCache.size, List.length_cons] at hcap
        omega
      obtain ⟨e, hcache, hmax⟩ :
          ∃ e, (c.addFileToCache fs now p).fileCache.cache
              = c.fileCache.cache ++ [(p, e)] ∧
            (c.addFileToCache fs now p).fileCache.maxSize
              = c.fileCache.maxSize := by
        rw [hacc', LRUCache.set_new_noevict now _ hfr hszlt]
        exact ⟨_, rfl, rfl⟩
      have hlen : (c.addFileToCache fs now p).fileCache.size
          = c.fileCache.size + 1 := by
        simp [LRUCache.size, hcache]
      have hrec := addFilesToCache_size fs now rest (c.addFileToCache fs now p)
        (by
          intro q hq
          have hq1 : jsMapHas c.fileCache.cache q = false :=
            hfresh q (List.mem_cons_of_mem p hq)
          have hqp : ¬ (p = q) := by
            rintro rfl
            exact hpnotin hq
          rw [hcache]
          simp only [jsMapHas] at hq1 ⊢
          simp [List.any_append, hq1, hqp])
        hndrest
        (fun q hq => hacc q (List.mem_cons_of_mem p hq))
        (by
          rw [hlen, hmax]
          simp only [LRUCache.size, List.length_cons] at hcap ⊢
          omega)
      show (LightweightContext.addFilesToCache fs now
          (c.addFileToCache fs now p) rest).fileCache.size
        = c.fileCache.size + (p :: rest).length
      rw [hrec, hlen]
      simp only [List.length_cons]
      omega

theorem c6newPaths_nodup : c6newPaths.Nodup := by
  unfold c6newPaths
  refine List.Nodup.map ?_ (List.nodup_range 198)
  intro i j h
  have h2 : ('/' : Char) :: 'w' :: '/' :: 'n' :: List.replicate i 'q'
      = '/' :: 'w' :: '/' :: 'n' :: List.replicate j 'q' := congrArg String.data h
  simp only [List.cons.injEq, true_and] at h2
  have := congrArg List.length h2
  simpa using this

theorem c6_ne_key (s : String) (k : String) (c : Char) (rest : List Char)
    (hk : k.data = '/' :: 'w' :: '/' :: c :: rest) (hc : c ≠ 'n') :
    ¬ ("/w/n" ++ s = k) := by
  intro h
  have h2 := congrArg String.data h
  rw [hk] at h2
  have h3 : ('/' : Char) :: 'w' :: '/' :: 'n' :: s.data
      = '/' :: 'w' :: '/' :: c :: rest := h2
  simp only [List.cons.injEq] at h3
  exact hc h3.2.2.2.1.symm

set_option maxRecDepth 10000 in
theorem c6_fresh : ∀ p ∈ c6newPaths,
    jsMapHas c6ctxAfterInit.fileCache.cache p = false := by
  have hkeys : c6ctxAfterInit.fileCache.cache.map Prod.fst =
      ["/w/p1/package.json", "/w/p2/package.json", "/w/p3/package.json"] := by
    decide
  intro p hp
  simp only [c6newPaths, List.mem_map, List.mem_range] at hp
  obtain ⟨i, _, rfl⟩ := hp
  cases hjs : jsMapHas c6ctxAfterInit.fileCache.cache
      ("/w/n" ++ String.mk (List.replicate i 'q')) with
  | false => rfl
  | true =>
    exfalso
    have hmem := (jsMapHas_iff _ _).1 hjs
    rw [hkeys] at hmem
    simp only [List.mem_cons, List.not_mem_nil, or_false] at hmem
    rcases hmem with h | h | h
    · exact c6_ne_key _ _ 'p' _ rfl (by decide) h
    · exact c6_ne_key _ _ 'p' _ rfl (by decide) h
    · exact c6_ne_key _ _ 'p' _ rfl (by decide) h

set_option maxRecDepth 10000 in
/-- **C6** (counterexample).  On a workspace with three project-like
subdirectories, `initialize` lowers `MAX_FILES` to 200 — but the LRU
cache's own capacity stays at its construction-time 300, and a burst of
198 `add` events after the scan pushes the cache to 201 entries, more
than the lowered bound of 200.  So it is not the cache *capacity* that is
lowered, and the cache *can* hold more entries than the lowered bound
after `initialize` has completed. -/
theorem c6_counterexample :
    c6ctxAfterInit.MAX_FILES = 200 ∧
    c6ctxAfterInit.fileCache.maxSize = 300 ∧
    LightweightContext.getCacheSize c6after = 201 := by
  refine ⟨by decide, by decide, ?_⟩
  have hsz := addFilesToCache_size multiProjFS 0 c6newPaths c6ctxAfterInit
    c6_fresh c6newPaths_nodup
    (by decide)
    (by decide)
  show (LightweightContext.addFilesToCache multiProjFS 0 c6ctxAfterInit
    c6newPaths).fileCache.size = 201
  rw [hsz]
  decide

set_option maxRecDepth 10000 in
theorem c6_amended_witness :
    c6ctxAfterInit.MAX_FILES = 200 ∧
    c6ctxAfterInit.fileCache.maxSize =
      LightweightContext.new.fileCache.maxSize ∧
    c6ctxAfterInit.fileCache.size ≤ 200 :=
  c6_amended multiProjFS none 0 LightweightContext.new "/w" c6ctxAfterInit
    ["p1", "p2", "p3"] 3 (by decide) (by decide) (by decide) (by decide)
    (by rfl)

theorem jsSetAdd_mem_of_mem {K : Type} [DecidableEq K] {s : List K} {k x : K}
    (hx : x ∈ s) : x ∈ jsSetAdd s k := by
  unfold jsSetAdd
  split
  · exact hx
  · exact List.mem_append_left _ hx

theorem jsSetAdd_self {K : Type} [DecidableEq K] (s : List K) (k : K) :
    k ∈ jsSetAdd s k := by
  unfold jsSetAdd
  split
  · assumption
  · exact List.mem_append_right _ (List.mem_singleton.mpr rfl)

theorem exceptFoldl_error {α β : Type}
    (f : Except Unit α → β → Except Unit α)
    (herr : ∀ e p, f (.error e) p = .error e) :
    ∀ (es : List β) (e : Unit), es.foldl f (.error e) = .error e
  | [], _ => rfl
  | p :: rest, e => by
    rw [List.foldl_cons, herr e p]
    exact exceptFoldl_error f herr rest e

theorem exceptFoldl_mono {β : Type}
    (f : Except Unit (List String × List ChangeEvent) → β →
      Except Unit (List String × List ChangeEvent))
    (herr : ∀ e p, f (.error e) p = .error e)
    (hstep : ∀ a p a', f (.ok a) p = .ok a' → ∀ x ∈ a.1, x ∈ a'.1) :
    ∀ (es : List β) (a a' : List String × List ChangeEvent),
      es.foldl f (.ok a) = .ok a' → ∀ x ∈ a.1, x ∈ a'.1
  | [], a, a', h => by
    cases h
    exact fun x hx => hx
  | e :: rest, a, a', h => by
    rw [List.foldl_cons] at h
    cases hfe : f (.ok a) e with
    | error err =>
      rw [hfe, exceptFoldl_error f herr rest err] at h
      exact Except.noConfusion h
    | ok a₂ =>
      rw [hfe] at h
      intro x hx
      exact exceptFoldl_mono f herr hstep rest a₂ a' h x (hstep a e a₂ hfe x hx)

theorem exceptFoldl_pair {β : Type} (N : List String)
    (f₁ f₂ : Except Unit (List String × List ChangeEvent) → β →
      Except Unit (List String × List ChangeEvent))
    (herr : ∀ e p, f₁ (.error e) p = .error e)
    (hmono : ∀ a p a', f₁ (.ok a) p = .ok a' → ∀ x ∈ a.1, x ∈ a'.1)
    (hstep : ∀ p nf ch ch₂ nf₂ chm, f₁ (.ok (nf, ch)) p = .ok (nf₂, chm) →
      (∀ x ∈ nf₂, x ∈ N) → f₂ (.ok (nf, ch₂)) p = .ok (nf₂, ch₂)) :
    ∀ (es : List β) (nf : List String) (ch ch₂ : List ChangeEvent)
      (nf' : List String) (ch' : List ChangeEvent),
      es.foldl f₁ (.ok (nf, ch)) = .ok (nf', ch') →
      (∀ x ∈ nf', x ∈ N) →
      es.foldl f₂ (.ok (nf, ch₂)) = .ok (nf', ch₂)
  | [], nf, ch, ch₂, nf', ch', h, _ => by
    cases h
    rfl
  | e :: rest, nf, ch, ch₂, nf', ch', h, hN => by
    rw [List.foldl_cons] at h
    cases hfe : f₁ (.ok (nf, ch)) e with
    | error err =>
      rw [hfe, exceptFoldl_error f₁ herr rest err] at h
      exact Except.noConfusion h
    | ok a₂ =>
      obtain ⟨nf₂, chm⟩ := a₂
      rw [hfe] at h
      have hsub : ∀ x ∈ nf₂, x ∈ nf' := exceptFoldl_mono f₁ herr hmono rest _ _ h
      have hfe₂ := hstep e nf ch ch₂ nf₂ chm hfe (fun x hx => hN x (hsub x hx))
      rw [List.foldl_cons, hfe₂]
      exact exceptFoldl_pair N f₁ f₂ herr hmono hstep rest nf₂ chm ch₂ nf' ch' h hN

theorem mrScanGo_mono (fs : FS) (dir : String) (ci : List String) :
    ∀ (gas : Nat) (cp : String) (depth : Nat)
      (a a' : List String × List ChangeEvent),
      FileWatcherService.mrScanGo fs dir ci gas cp depth a = Except.ok a' →
      ∀ x ∈ a.1, x ∈ a'.1 := by
  intro gas
  induction gas with
  | zero =>
    intro cp depth a a' h
    simp only [FileWatcherService.mrScanGo] at h
    cases h
    exact fun x hx => hx
  | succ gas ih =>
    intro cp depth a a' h
    simp only [FileWatcherService.mrScanGo] at h
    cases hrd : fs.readdirTyped cp with
    | none =>
      rw [hrd] at h
      exact Except.noConfusion h
    | some entries =>
      rw [hrd] at h
      refine exceptFoldl_mono _ (fun e p => rfl) ?_ entries a a' h
      intro b p b' hb
      dsimp only at hb
      by_cases h1 : FileWatcherService.shouldIgnoreFile
          (pathRelative dir (pathJoin cp p.1)) = true
      · rw [if_pos h1] at hb
        cases hb
        exact fun x hx => hx
      · rw [if_neg h1] at hb
        by_cases h2 : p.2.isFile = true
        · rw [if_pos h2] at hb
          cases hb
          exact fun x hx => jsSetAdd_mem_of_mem hx
        · rw [if_neg h2] at hb
          by_cases h3 : p.2.isDirectory = true ∧ depth < 3
          · rw [if_pos h3] at hb
            exact ih (pathJoin cp p.1) (depth + 1) b b' hb
          · rw [if_neg h3] at hb
            cases hb
            exact fun x hx => hx

theorem mrScanGo_pair (fs : FS) (dir : String) (ci N : List String) :
    ∀ (gas : Nat) (cp : String) (depth : Nat) (nf : List String)
      (ch ch₂ : List ChangeEvent) (nf' : List String) (ch' : List ChangeEvent),
      FileWatcherService.mrScanGo fs dir ci gas cp depth (nf, ch)
        = Except.ok (nf', ch') →
      (∀ x ∈ nf', x ∈ N) →
      FileWatcherService.mrScanGo fs dir N gas cp depth (nf, ch₂)
        = Except.ok (nf', ch₂) := by
  intro gas
  induction gas with
  | zero =>
    intro cp depth nf ch ch₂ nf' ch' h _
    simp only [FileWatcherService.mrScanGo] at h ⊢
    cases h
    rfl
  | succ gas ih =>
    intro cp depth nf ch ch₂ nf' ch' h hN
    simp only [FileWatcherService.mrScanGo] at h ⊢
    cases hrd : fs.readdirTyped cp with
    | none =>
      rw [hrd] at h
      exact Except.noConfusion h
    | some entries =>
      rw [hrd] at h
      refine exceptFoldl_pair N _ _ (fun e p => rfl) ?_ ?_ entries nf ch ch₂ nf' ch' h hN
      · intro b p b' hb
        dsimp only at hb
        by_cases h1 : FileWatcherService.shouldIgnoreFile
            (pathRelative dir (pathJoin cp p.1)) = true
        · rw [if_pos h1] at hb
          cases hb
          exact fun x hx => hx
        · rw [if_neg h1] at hb
          by_cases h2 : p.2.isFile = true
          · rw [if_pos h2] at hb
            cases hb
            exact fun x hx => jsSetAdd_mem_of_mem hx
          · rw [if_neg h2] at hb
            by_cases h3 : p.2.isDirectory = true ∧ depth < 3
            · rw [if_pos h3] at hb
              exact mrScanGo_mono fs dir ci gas (pathJoin cp p.1) (depth + 1) b b' hb
            · rw [if_neg h3] at hb
              cases hb
              exact fun x hx => hx
      · intro p nf₀ ch₀ ch₀₂ nf₂ chm hb hsubN
        dsimp only at hb ⊢
        by_cases h1 : FileWatcherService.shouldIgnoreFile
            (pathRelative dir (pathJoin cp p.1)) = true
        · rw [if_pos h1] at hb ⊢
          cases hb
          rfl
        · rw [if_neg h1] at hb ⊢
          by_cases h2 : p.2.isFile = true
          · rw [if_pos h2] at hb ⊢
            have hnf₂ : nf₂ = jsSetAdd nf₀ (pathJoin cp p.1) := by
              cases hb
              rfl
            have hfpN : pathJoin cp p.1 ∈ N := by
              refine hsubN _ ?_
              rw [hnf₂]
              exact jsSetAdd_self nf₀ (pathJoin cp p.1)
            rw [if_pos hfpN, hnf₂]
          · rw [if_neg h2] at hb ⊢
            by_cases h3 : p.2.isDirectory = true ∧ depth < 3
            · rw [if_pos h3] at hb ⊢
              exact ih (pathJoin cp p.1) (depth + 1) nf₀ ch₀ ch₀₂ nf₂ chm hb hsubN
            · rw [if_neg h3] at hb ⊢
              cases hb
              rfl

theorem manualRefresh_ok (fs : FS) (s : FileWatcherService) (dir : String)
    (N : List String) (chs : List ChangeEvent)
    (hscan : FileWatcherService.mrScanDir fs dir
        ((jsMapGet s.fileIndex dir).getD []) dir 0 ([], [])
      = Except.ok (N, chs)) :
    FileWatcherService.manualRefresh fs s dir =
      Except.ok ({ s with fileIndex := jsMapSet s.fileIndex dir N },
        chs ++ (((jsMapGet s.fileIndex dir).getD []).filter fun p =>
            decide (¬ p ∈ N)).map (fun filePath =>
          ({ type := "unlink", path := filePath,
             relativePath := pathRelative dir filePath,
             stats := none } : ChangeEvent)),
        N.length,
        (chs ++ (((jsMapGet s.fileIndex dir).getD []).filter fun p =>
            decide (¬ p ∈ N)).map (fun filePath =>
          ({ type := "unlink", path := filePath,
             relativePath := pathRelative dir filePath,
             stats := none } : ChangeEvent))).map
          fun change => FWEffect.emitFileChange dir change) := by
  unfold FileWatcherService.manualRefresh
  simp only [hscan]

/-- **C7**: for every filesystem, watch-service state and root, if
`manualRefresh(root)` succeeds, running it again with no filesystem change
in between succeeds with zero synthesized change events — no `add` and no
`unlink` — and zero emitted `file:change` notifications, reporting the
same total file count: the first call replaced the recorded path set for
the root with the freshly scanned set, so the second call's diff against
it is empty. -/
theorem c7_second_refresh_quiet (fs : FS) (s : FileWatcherService)
    (dir : String) (s₁ : FileWatcherService) (ch₁ : List ChangeEvent)
    (n₁ : Nat) (fx₁ : List FWEffect)
    (h1 : FileWatcherService.manualRefresh fs s dir
      = Except.ok (s₁, ch₁, n₁, fx₁)) :
    ∃ s₂ : FileWatcherService,
      FileWatcherService.manualRefresh fs s₁ dir
        = Except.ok (s₂, ([] : List ChangeEvent), n₁, ([] : List FWEffect)) := by
  cases hscan : FileWatcherService.mrScanDir fs dir
      ((jsMapGet s.fileIndex dir).getD []) dir 0 ([], []) with
  | error e =>
    exfalso
    unfold FileWatcherService.manualRefresh at h1
    simp only [hscan] at h1
    exact Except.noConfusion h1
  | ok res =>
    obtain ⟨N, chs⟩ := res
    rw [manualRefresh_ok fs s dir N chs hscan] at h1
    simp only [Except.ok.injEq, Prod.mk.injEq] at h1
    obtain ⟨hs₁, _, hn₁, _⟩ := h1
    have hci₂ : (jsMapGet s₁.fileIndex dir).getD [] = N := by
      rw [← hs₁]
      show (jsMapGet (jsMapSet s.fileIndex dir N) dir).getD [] = N
      rw [jsMapGet_jsMapSet_self]
      rfl
    have hscan₂ : FileWatcherService.mrScanDir fs dir
        ((jsMapGet s₁.fileIndex dir).getD []) dir 0 ([], [])
        = Except.ok (N, ([] : List ChangeEvent)) := by
      rw [hci₂]
      unfold FileWatcherService.mrScanDir at hscan ⊢
      exact mrScanGo_pair fs dir ((jsMapGet s.fileIndex dir).getD []) N
        (4 - 0) dir 0 [] [] [] N chs hscan (fun x hx => hx)
    rw [manualRefresh_ok fs s₁ dir N [] hscan₂]
    have hfilter : ((jsMapGet s₁.fileIndex dir).getD []).filter
        (fun p => decide (¬ p ∈ N)) = [] := by
      rw [hci₂]
      exact List.filter_eq_nil_iff.mpr (fun a ha => by simp [ha])
    rw [hfilter]
    rw [← hn₁]
    exact ⟨_, rfl⟩

theorem c7_witness :
    ∃ s₂ : FileWatcherService,
      FileWatcherService.manualRefresh mrFS
          { fwInit with
            fileIndex := [("/r", ["/r/x.txt", "/r/sub/y.txt"])] } "/r"
        = Except.ok (s₂, ([] : List ChangeEvent), 2, ([] : List FWEffect)) :=
  c7_second_refresh_quiet mrFS fwInit "/r"
    { fwInit with fileIndex := [("/r", ["/r/x.txt", "/r/sub/y.txt"])] }
    [{ type := "add", path := "/r/x.txt",
       relativePath := pathRelative "/r" "/r/x.txt", stats := none },
     { type := "add", path := "/r/sub/y.txt",
       relativePath := pathRelative "/r" "/r/sub/y.txt", stats := none }]
    2
    [FWEffect.emitFileChange "/r"
       { type := "add", path := "/r/x.txt",
         relativePath := pathRelative "/r" "/r/x.txt", stats := none },
     FWEffect.emitFileChange "/r"
       { type := "add", path := "/r/sub/y.txt",
         relativePath := pathRelative "/r" "/r/sub/y.txt", stats := none }]
    (by rfl)

theorem jsMapSet_length_of_has {K V : Type} [DecidableEq K] {m : List (K × V)}
    {k : K} (v : V) (h : jsMapHas m k = true) :
    (jsMapSet m k v).length = m.length := by
  unfold jsMapSet
  rw [if_pos h]
  exact List.length_map m _

theorem jsMapSet_length_of_fresh {K V : Type} [DecidableEq K] {m : List (K × V)}
    {k : K} (v : V) (h : jsMapHas m k = false) :
    (jsMapSet m k v).length = m.length + 1 := by
  unfold jsMapSet
  rw [if_neg (by simp [h])]
  simp

theorem jsMapSet_map_fst_of_has {K V : Type} [DecidableEq K] {m : List (K × V)}
    {k : K} (v : V) (h : jsMapHas m k = true) :
    (jsMapSet m k v).map Prod.fst = m.map Prod.fst := by
  unfold jsMapSet
  rw [if_pos h]
  have hgen : ∀ mm : List (K × V),
      (mm.map fun p => if p.1 = k then (p.1, v) else p).map Prod.fst
        = mm.map Prod.fst := by
    intro mm
    induction mm with
    | nil => rfl
    | cons p rest ih =>
      obtain ⟨k', v'⟩ := p
      by_cases hp : k' = k <;> simp [hp, ih]
  exact hgen m

theorem jsMapSet_map_fst_of_fresh {K V : Type} [DecidableEq K] {m : List (K × V)}
    {k : K} (v : V) (h : jsMapHas m k = false) :
    (jsMapSet m k v).map Prod.fst = m.map Prod.fst ++ [k] := by
  unfold jsMapSet
  rw [if_neg (by simp [h])]
  simp

theorem jsMapSet_mem {K V : Type} [DecidableEq K] {m : List (K × V)} {k : K}
    {v : V} {q : K × V} (hq : q ∈ jsMapSet m k v) : q.2 = v ∨ q ∈ m := by
  unfold jsMapSet at hq
  split at hq
  · obtain ⟨p, hp, rfl⟩ := List.mem_map.1 hq
    by_cases hpk : p.1 = k
    · rw [if_pos hpk]
      exact Or.inl rfl
    · rw [if_neg hpk]
      exact Or.inr hp
  · rcases List.mem_append.1 hq with h | h
    · exact Or.inr h
    · rw [List.mem_singleton.1 h]
      exact Or.inl rfl

theorem jsMapGet_some_mem {K V : Type} [DecidableEq K] :
    ∀ {m : List (K × V)} {k : K} {v : V}, jsMapGet m k = some v → (k, v) ∈ m := by
  intro m
  induction m with
  | nil => intro k v h; exact Option.noConfusion h
  | cons p rest ih =>
    intro k v h
    obtain ⟨k', v'⟩ := p
    by_cases hp : k' = k
    · subst hp
      rw [jsMapGet, if_pos rfl] at h
      cases h
      exact List.mem_cons_self _ _
    · rw [jsMapGet, if_neg hp] at h
      exact List.mem_cons_of_mem _ (ih h)

theorem jsMapDelete_sub {K V : Type} [DecidableEq K] {m : List (K × V)} {k : K}
    {q : K × V} (hq : q ∈ jsMapDelete m k) : q ∈ m :=
  List.mem_of_mem_filter hq

theorem jsMapDelete_length_of_mem {K V : Type} [DecidableEq K] :
    ∀ {m : List (K × V)} {k : K}, (m.map Prod.fst).Nodup →
      k ∈ m.map Prod.fst → (jsMapDelete m k).length + 1 = m.length := by
  intro m
  induction m with
  | nil => intro k _ hk; simp at hk
  | cons p rest ih =>
    intro k hnd hk
    obtain ⟨k', v'⟩ := p
    simp only [List.map_cons, List.nodup_cons] at hnd
    by_cases hp : k' = k
    · subst hp
      have hrest : jsMapDelete rest k' = rest := by
        unfold jsMapDelete
        refine List.filter_eq_self.mpr ?_
        intro q hq
        simp only [decide_eq_true_eq]
        intro hqk
        exact hnd.1 (hqk ▸ List.mem_map_of_mem Prod.fst hq)
      show (jsMapDelete ((k', v') :: rest) k').length + 1
        = ((k', v') :: rest).length
      unfold jsMapDelete
      rw [List.filter_cons_of_neg (by simp)]
      unfold jsMapDelete at hrest
      rw [hrest]
      simp
    · have hk' : k ∈ rest.map Prod.fst := by
        rcases List.mem_cons.1 hk with h | h
        · exact absurd h.symm hp
        · exact h
      have := ih hnd.2 hk'
      show (jsMapDelete ((k', v') :: rest) k).length + 1 = rest.length + 1
      unfold jsMapDelete
      rw [List.filter_cons_of_pos (by simp [hp])]
      simp only [List.length_cons]
      unfold jsMapDelete at this
      omega

theorem dropWhile_dropWhile {α : Type} (p : α → Bool) (l : List α) :
    (l.dropWhile p).dropWhile p = l.dropWhile p := by
  induction l with
  | nil => rfl
  | cons a rest ih =>
    by_cases h : p a = true
    · rw [List.dropWhile_cons_of_pos h]
      exact ih
    · rw [List.dropWhile_cons_of_neg h, List.dropWhile_cons_of_neg h]

theorem map_id_of_fix {α : Type} (f : α → α) :
    ∀ (x : List α), (∀ c ∈ x, f c = c) → x.map f = x
  | [], _ => rfl
  | a :: rest, h => by
    rw [List.map_cons, h a (List.mem_cons_self a rest),
      map_id_of_fix f rest (fun c hc => h c (List.mem_cons_of_mem a hc))]

theorem normalizePath_idem (p : String) :
    WorkspaceContextManager.normalizePath
      (WorkspaceContextManager.normalizePath p)
      = WorkspaceContextManager.normalizePath p := by
  unfold WorkspaceContextManager.normalizePath
  dsimp only
  refine congrArg String.mk ?_
  refine congrArg List.reverse ?_
  show (((((p.data.map fun ch => if ch = '\\' then '/' else ch).reverse.dropWhile
      fun ch => ch = '/').reverse).map fun ch => if ch = '\\' then '/' else ch).reverse.dropWhile
      fun ch => ch = '/')
    = ((p.data.map fun ch => if ch = '\\' then '/' else ch).reverse.dropWhile
      fun ch => ch = '/')
  rw [map_id_of_fix]
  · rw [List.reverse_reverse]
    exact dropWhile_dropWhile _ _
  · intro c hc
    have hc1 : c ∈ (p.data.map fun ch => if ch = '\\' then '/' else ch) := by
      have h2 := (List.dropWhile_sublist (l :=
        (p.data.map fun ch => if ch = '\\' then '/' else ch).reverse)
        (p := fun ch => ch = '/')).subset (List.mem_reverse.1 hc)
      exact List.mem_reverse.1 h2
    obtain ⟨ch, _, rfl⟩ := List.mem_map.1 hc1
    by_cases hch : ch = '\\' <;> simp [hch]

theorem findOldest_step_some (pred : String → WCInstance → Bool) :
    ∀ (l : List (String × WCInstance)) (b : Option String × Nat),
      b.1.isSome = true →
      (l.foldl
        (fun best p =>
          if pred p.1 p.2 ∧ p.2.lastAccessed < best.2 then
            (some p.1, p.2.lastAccessed)
          else best) b).1.isSome = true := by
  intro l
  refine foldl_preserves _ ?_ l
  intro b a hb
  by_cases hc : pred a.1 a.2 ∧ a.2.lastAccessed < b.2
  · rw [if_pos hc]
    rfl
  · rw [if_neg hc]
    exact hb

theorem findOldest_exists_some (pred : String → WCInstance → Bool) :
    ∀ (l : List (String × WCInstance)) (b : Option String × Nat),
      (∃ q ∈ l, pred q.1 q.2 = true ∧ q.2.lastAccessed < b.2) →
      (l.foldl
        (fun best p =>
          if pred p.1 p.2 ∧ p.2.lastAccessed < best.2 then
            (some p.1, p.2.lastAccessed)
          else best) b).1.isSome = true
  | [], b, hex => by
    obtain ⟨q, hq, _⟩ := hex
    exact absurd hq (List.not_mem_nil q)
  | e :: rest, b, hex => by
    rw [List.foldl_cons]
    by_cases hc : pred e.1 e.2 ∧ e.2.lastAccessed < b.2
    · rw [if_pos hc]
      exact findOldest_step_some pred rest _ rfl
    · rw [if_neg hc]
      obtain ⟨q, hq, hpred, hlt⟩ := hex
      rcases List.mem_cons.1 hq with rfl | hq'
      · exact absurd ⟨hpred, hlt⟩ hc
      · exact findOldest_exists_some pred rest b ⟨q, hq', hpred, hlt⟩

theorem findOldest_some_mem (pred : String → WCInstance → Bool) :
    ∀ (l : List (String × WCInstance)) (b : Option String × Nat) (p : String),
      (l.foldl
        (fun best q =>
          if pred q.1 q.2 ∧ q.2.lastAccessed < best.2 then
            (some q.1, q.2.lastAccessed)
          else best) b).1 = some p →
      p ∈ l.map Prod.fst ∨ b.1 = some p
  | [], b, p, h => Or.inr h
  | e :: rest, b, p, h => by
    rw [List.foldl_cons] at h
    rcases findOldest_some_mem pred rest _ p h with hm | hb
    · exact Or.inl (List.mem_cons_of_mem _ hm)
    · by_cases hc : pred e.1 e.2 ∧ e.2.lastAccessed < b.2
      · rw [if_pos hc] at hb
        cases hb
        exact Or.inl (List.mem_cons_self _ _)
      · rw [if_neg hc] at hb
        exact Or.inr hb

theorem poolInv_mk (t : Nat) (m : WorkspaceContextManager)
    (l : List (String × WCInstance))
    (h1 : (l.map Prod.fst).Nodup)
    (h2 : l.length ≤ m.MAX_INSTANCES)
    (h3 : 2 ≤ m.MAX_INSTANCES)
    (h4 : ∀ k ∈ l.map Prod.fst, WorkspaceContextManager.normalizePath k = k)
    (h5 : ∀ q ∈ l, q.2.lastAccessed < t) :
    PoolInv t { m with instances := l } :=
  ⟨h1, h2, h3, h4, h5⟩

theorem closeWorkspace_PoolInv (t : Nat) (m : WorkspaceContextManager) (p : String)
    (h : PoolInv t m) :
    PoolInv t (WorkspaceContextManager.closeWorkspace m p) ∧
    (WorkspaceContextManager.closeWorkspace m p).MAX_INSTANCES = m.MAX_INSTANCES ∧
    (WorkspaceContextManager.closeWorkspace m p).instances.length
      ≤ m.instances.length ∧
    (∀ k ∈ (WorkspaceContextManager.closeWorkspace m p).instances.map Prod.fst,
      k ∈ m.instances.map Prod.fst) := by
  obtain ⟨hnd, hlen, hmax2, hnorm, hla⟩ := h
  unfold WorkspaceContextManager.closeWorkspace
  dsimp only
  cases hg : jsMapGet m.instances (WorkspaceContextManager.normalizePath p) with
  | none =>
    exact ⟨⟨hnd, hlen, hmax2, hnorm, hla⟩, rfl, le_refl _, fun k hk => hk⟩
  | some inst =>
    have key := poolInv_mk t m
      (jsMapDelete m.instances (WorkspaceContextManager.normalizePath p))
      (by rw [jsMapDelete_map_fst]; exact hnd.filter _)
      (le_trans (jsMapDelete_length_le _ _) hlen)
      hmax2
      (by
        intro k hk
        rw [jsMapDelete_map_fst] at hk
        exact hnorm k (List.mem_of_mem_filter hk))
      (fun q hq => hla q (jsMapDelete_sub hq))
    have hsub : ∀ k ∈ (jsMapDelete m.instances
        (WorkspaceContextManager.normalizePath p)).map Prod.fst,
        k ∈ m.instances.map Prod.fst := by
      intro k hk
      rw [jsMapDelete_map_fst] at hk
      exact List.mem_of_mem_filter hk
    dsimp only
    split
    · exact ⟨key, rfl, jsMapDelete_length_le _ _, hsub⟩
    · exact ⟨key, rfl, jsMapDelete_length_le _ _, hsub⟩

theorem closeWorkspace_length_of_mem (m : WorkspaceContextManager) (p : String)
    (hmem : p ∈ m.instances.map Prod.fst)
    (hpnorm : WorkspaceContextManager.normalizePath p = p)
    (hnd : (m.instances.map Prod.fst).Nodup) :
    (WorkspaceContextManager.closeWorkspace m p).instances.length + 1
      = m.instances.length := by
  unfold WorkspaceContextManager.closeWorkspace
  dsimp only
  rw [hpnorm]
  cases hg : jsMapGet m.instances p with
  | none => exact absurd hmem ((jsMapGet_none_iff m.instances p).1 hg)
  | some inst =>
    dsimp only
    split
    · exact jsMapDelete_length_of_mem hnd hmem
    · exact jsMapDelete_length_of_mem hnd hmem

theorem findOldestWhere_some_mem (pred : String → WCInstance → Bool) (now : Nat)
    (l : List (String × WCInstance)) (p : String)
    (h : (WorkspaceContextManager.findOldestWhere pred now l).1 = some p) :
    p ∈ l.map Prod.fst := by
  unfold WorkspaceContextManager.findOldestWhere at h
  rcases findOldest_some_mem pred l (none, now) p h with hm | hb
  · exact hm
  · exact Option.noConfusion hb

theorem findOldestWhere_isSome (pred : String → WCInstance → Bool) (now : Nat)
    (l : List (String × WCInstance))
    (hex : ∃ q ∈ l, pred q.1 q.2 = true ∧ q.2.lastAccessed < now) :
    ((WorkspaceContextManager.findOldestWhere pred now l).1).isSome = true := by
  unfold WorkspaceContextManager.findOldestWhere
  exact findOldest_exists_some pred l (none, now) hex

theorem evict_PoolInv (t now : Nat) (m : WorkspaceContextManager)
    (h : PoolInv t m) (ht : t ≤ now) (hne : 2 ≤ m.instances.length) :
    PoolInv t (WorkspaceContextManager.evictOldestInactiveInstance now m) ∧
    (WorkspaceContextManager.evictOldestInactiveInstance now m).MAX_INSTANCES
      = m.MAX_INSTANCES ∧
    (WorkspaceContextManager.evictOldestInactiveInstance now m).instances.length + 1
      = m.instances.length ∧
    (∀ k ∈ (WorkspaceContextManager.evictOldestInactiveInstance
        now m).instances.map Prod.fst, k ∈ m.instances.map Prod.fst) := by
  have hclose : ∀ p, p ∈ m.instances.map Prod.fst →
      PoolInv t (WorkspaceContextManager.closeWorkspace m p) ∧
      (WorkspaceContextManager.closeWorkspace m p).MAX_INSTANCES
        = m.MAX_INSTANCES ∧
      (WorkspaceContextManager.closeWorkspace m p).instances.length + 1
        = m.instances.length ∧
      (∀ k ∈ (WorkspaceContextManager.closeWorkspace m p).instances.map Prod.fst,
        k ∈ m.instances.map Prod.fst) := by
    intro p hp
    obtain ⟨hc1, hc2, _, hc4⟩ := closeWorkspace_PoolInv t m p h
    exact ⟨hc1, hc2, closeWorkspace_length_of_mem m p hp (h.2.2.2.1 p hp) h.1, hc4⟩
  unfold WorkspaceContextManager.evictOldestInactiveInstance
  dsimp only
  cases hfp : (WorkspaceContextManager.findOldestWhere
      (fun _ inst => ¬ inst.isActive) now m.instances).1 with
  | some p =>
    simp only [hfp]
    exact hclose p (findOldestWhere_some_mem _ now m.instances p hfp)
  | none =>
    simp only [hfp]
    have hex : ∃ q ∈ m.instances,
        (fun path _ => decide (m.currentWorkspacePath ≠ some path)) q.1 q.2 = true ∧
        q.2.lastAccessed < now := by
      cases hl : m.instances with
      | nil =>
        rw [hl] at hne
        exact absurd hne (by simp)
      | cons a rest =>
        have hmema : a ∈ m.instances := by
          rw [hl]
          exact List.mem_cons_self a rest
        have hlaa : a.2.lastAccessed < now := by
          have := h.2.2.2.2 a hmema
          omega
        cases hcur : m.currentWorkspacePath with
        | none =>
          refine ⟨a, List.mem_cons_self a rest, ?_, hlaa⟩
          simp
        | some cur =>
          cases hr : rest with
          | nil =>
            rw [hl, hr] at hne
            exact absurd hne (by simp)
          | cons b rest2 =>
            have hmemb : b ∈ m.instances := by
              rw [hl, hr]
              exact List.mem_cons_of_mem a (List.mem_cons_self b rest2)
            have hlab : b.2.lastAccessed < now := by
              have := h.2.2.2.2 b hmemb
              omega
            have hab : a.1 ≠ b.1 := by
              have hnd := h.1
              rw [hl, hr] at hnd
              simp only [List.map_cons, List.nodup_cons, List.mem_cons] at hnd
              intro hEq
              exact hnd.1 (Or.inl hEq)
            by_cases hac : a.1 = cur
            · have hpredb : decide (some cur ≠ some b.1) = true := by
                simp only [decide_eq_true_eq]
                intro hbc
                rw [Option.some.injEq] at hbc
                exact hab (by rw [hac, ← hbc])
              exact ⟨b, List.mem_cons_of_mem a (List.mem_cons_self b rest2),
                hpredb, hlab⟩
            · have hpreda : decide (some cur ≠ some a.1) = true := by
                simp only [decide_eq_true_eq]
                intro hacEq
                rw [Option.some.injEq] at hacEq
                exact hac hacEq.symm
              exact ⟨a, List.mem_cons_self a (b :: rest2), hpreda, hlaa⟩
    have hs := findOldestWhere_isSome
      (fun path _ => decide (m.currentWorkspacePath ≠ some path)) now m.instances hex
    cases hsp : (WorkspaceContextManager.findOldestWhere
        (fun path _ => decide (m.currentWorkspacePath ≠ some path))
        now m.instances).1 with
    | none => rw [hsp] at hs; exact Bool.noConfusion hs
    | some p =>
      simp only [hsp]
      exact hclose p (findOldestWhere_some_mem _ now m.instances p hsp)

theorem poolInv_mono {t u : Nat} {m : WorkspaceContextManager} (htu : t ≤ u)
    (h : PoolInv t m) : PoolInv u m :=
  ⟨h.1, h.2.1, h.2.2.1, h.2.2.2.1,
   fun q hq => lt_of_lt_of_le (h.2.2.2.2 q hq) htu⟩

theorem poolInv_set_present (u : Nat) (m : WorkspaceContextManager) (k : String)
    (v : WCInstance) (h : PoolInv u m)
    (hhas : jsMapHas m.instances k = true) (hv : v.lastAccessed < u) :
    PoolInv u { m with instances := jsMapSet m.instances k v } ∧
    (jsMapSet m.instances k v).length = m.instances.length ∧
    (jsMapSet m.instances k v).map Prod.fst = m.instances.map Prod.fst := by
  obtain ⟨hnd, hlen, hmax2, hnorm, hla⟩ := h
  have hkeys := jsMapSet_map_fst_of_has (m := m.instances) v hhas
  have hlen2 := jsMapSet_length_of_has (m := m.instances) v hhas
  refine ⟨⟨?_, ?_, hmax2, ?_, ?_⟩, hlen2, hkeys⟩
  · show ((jsMapSet m.instances k v).map Prod.fst).Nodup
    rw [hkeys]
    exact hnd
  · show (jsMapSet m.instances k v).length ≤ m.MAX_INSTANCES
    rw [hlen2]
    exact hlen
  · intro x hx
    rw [show ({ m with instances := jsMapSet m.instances k v } :
        WorkspaceContextManager).instances = jsMapSet m.instances k v from rfl,
      hkeys] at hx
    exact hnorm x hx
  · intro q hq
    rcases jsMapSet_mem hq with hqv | hqm
    · rw [hqv]
      exact hv
    · exact hla q hqm

theorem poolInv_set_fresh (u : Nat) (m : WorkspaceContextManager) (k : String)
    (v : WCInstance) (h : PoolInv u m)
    (hfresh : jsMapHas m.instances k = false) (hv : v.lastAccessed < u)
    (hknorm : WorkspaceContextManager.normalizePath k = k)
    (hcap : m.instances.length + 1 ≤ m.MAX_INSTANCES) :
    PoolInv u { m with instances := jsMapSet m.instances k v } ∧
    (jsMapSet m.instances k v).length = m.instances.length + 1 := by
  obtain ⟨hnd, _, hmax2, hnorm, hla⟩ := h
  have hkeys := jsMapSet_map_fst_of_fresh (m := m.instances) v hfresh
  have hlen2 := jsMapSet_length_of_fresh (m := m.instances) v hfresh
  have hnotin : k ∉ m.instances.map Prod.fst := jsMapHas_false hfresh
  refine ⟨⟨?_, ?_, hmax2, ?_, ?_⟩, hlen2⟩
  · show ((jsMapSet m.instances k v).map Prod.fst).Nodup
    rw [hkeys]
    exact LRUCache.nodup_append_singleton hnd hnotin
  · show (jsMapSet m.instances k v).length ≤ m.MAX_INSTANCES
    rw [hlen2]
    exact hcap
  · intro x hx
    rw [show ({ m with instances := jsMapSet m.instances k v } :
        WorkspaceContextManager).instances = jsMapSet m.instances k v from rfl,
      hkeys] at hx
    rcases List.mem_append.1 hx with hx1 | hx2
    · exact hnorm x hx1
    · rw [List.mem_singleton.1 hx2]
      exact hknorm
  · intro q hq
    rcases jsMapSet_mem hq with hqv | hqm
    · rw [hqv]
      exact hv
    · exact hla q hqm

theorem poolInv_delete (u : Nat) (m : WorkspaceContextManager) (k : String)
    (h : PoolInv u m) :
    PoolInv u { m with instances := jsMapDelete m.instances k } := by
  obtain ⟨hnd, hlen, hmax2, hnorm, hla⟩ := h
  refine ⟨?_, ?_, hmax2, ?_, ?_⟩
  · show ((jsMapDelete m.instances k).map Prod.fst).Nodup
    rw [jsMapDelete_map_fst]
    exact hnd.filter _
  · exact le_trans (jsMapDelete_length_le _ _) hlen
  · intro x hx
    rw [show ({ m with instances := jsMapDelete m.instances k } :
        WorkspaceContextManager).instances = jsMapDelete m.instances k from rfl,
      jsMapDelete_map_fst] at hx
    exact hnorm x (List.mem_of_mem_filter hx)
  · intro q hq
    exact hla q (jsMapDelete_sub hq)


theorem getOrCreate_PoolInv (t now : Nat) (fs : FS)
    (persisted : Option ProjectInfo) (m : WorkspaceContextManager)
    (path : String) (h : PoolInv t m) (ht : t ≤ now) :
    PoolInv (now + 1)
      (WorkspaceContextManager.getOrCreateContext fs persisted now m path).1 ∧
    (WorkspaceContextManager.getOrCreateContext
      fs persisted now m path).1.MAX_INSTANCES = m.MAX_INSTANCES := by
  have h1 : PoolInv (now + 1) m := poolInv_mono (by omega) h
  unfold WorkspaceContextManager.getOrCreateContext
  dsimp only
  cases hget : jsMapGet m.instances
      (WorkspaceContextManager.normalizePath path) with
  | some inst =>
    dsimp only
    obtain ⟨hm1, hm1len, hm1keys⟩ := poolInv_set_present (now + 1) m
      (WorkspaceContextManager.normalizePath path)
      { inst with lastAccessed := now, isActive := true }
      h1 (jsMapGet_some_has hget) (Nat.lt_succ_self now)
    cases hcur : m.currentWorkspacePath with
    | none =>
      dsimp only
      exact ⟨hm1, rfl⟩
    | some prev =>
      dsimp only
      by_cases hpv : prev ≠ WorkspaceContextManager.normalizePath path
      · rw [if_pos hpv]
        cases hgp : jsMapGet (jsMapSet m.instances
            (WorkspaceContextManager.normalizePath path)
            { inst with lastAccessed := now, isActive := true }) prev with
        | none =>
          dsimp only
          exact ⟨hm1, rfl⟩
        | some prevInst =>
          dsimp only
          have hbound : ({ prevInst with isActive := false } :
              WCInstance).lastAccessed < now + 1 :=
            hm1.2.2.2.2 (prev, prevInst) (jsMapGet_some_mem hgp)
          obtain ⟨hm2, _, _⟩ := poolInv_set_present (now + 1) _
            prev { prevInst with isActive := false } hm1
            (jsMapGet_some_has hgp) hbound
          exact ⟨hm2, rfl⟩
      · rw [if_neg hpv]
        exact ⟨hm1, rfl⟩
  | none =>
    dsimp only
    have hnotin : WorkspaceContextManager.normalizePath path ∉
        m.instances.map Prod.fst := (jsMapGet_none_iff _ _).1 hget
    by_cases hfull : m.instances.length ≥ m.MAX_INSTANCES
    · rw [if_pos hfull]
      have h2len : 2 ≤ m.instances.length := le_trans h.2.2.1 hfull
      obtain ⟨hE0, hEmax, hElen, hEsub⟩ := evict_PoolInv t now m h ht h2len
      have hE1 : PoolInv (now + 1) (WorkspaceContextManager.evictOldestInactiveInstance now m) :=
        poolInv_mono (by omega) hE0
      have hEfresh : jsMapHas
          (WorkspaceContextManager.evictOldestInactiveInstance now m).instances (WorkspaceContextManager.normalizePath path) = false := by
        cases hb : jsMapHas
            (WorkspaceContextManager.evictOldestInactiveInstance now m).instances (WorkspaceContextManager.normalizePath path) with
        | false => rfl
        | true =>
          exact absurd (hEsub _ ((jsMapHas_iff _ _).1 hb)) hnotin
      have hEcap : (WorkspaceContextManager.evictOldestInactiveInstance now m).instances.length + 1 ≤ (WorkspaceContextManager.evictOldestInactiveInstance now m).MAX_INSTANCES := by
        rw [hElen, hEmax]
        exact h.2.1
      cases hcurE : (WorkspaceContextManager.evictOldestInactiveInstance now m).currentWorkspacePath with
      | none =>
        dsimp only
        have hfreshX := hEfresh
        have hinvX := hE1
        obtain ⟨hmN, _⟩ := poolInv_set_fresh (now + 1) _
          (WorkspaceContextManager.normalizePath path)
          { context := LightweightContext.new, workspacePath := WorkspaceContextManager.normalizePath path, createdAt := now, lastAccessed := now, isActive := true }
          hinvX hfreshX (Nat.lt_succ_self now) (normalizePath_idem path)
          (by show (WorkspaceContextManager.evictOldestInactiveInstance now m).instances.length + 1 ≤ (WorkspaceContextManager.evictOldestInactiveInstance now m).MAX_INSTANCES; omega)
        cases hinit : LightweightContext.initCtx fs persisted now
            LightweightContext.new (WorkspaceContextManager.normalizePath path) with
        | ok ctx' =>
          dsimp only
          obtain ⟨hmF, _, _⟩ := poolInv_set_present (now + 1) _
            (WorkspaceContextManager.normalizePath path)
            { context := ctx', workspacePath := WorkspaceContextManager.normalizePath path, createdAt := now, lastAccessed := now, isActive := true }
            hmN (jsMapGet_some_has (jsMapGet_jsMapSet_self _ _ _))
            (Nat.lt_succ_self now)
          exact ⟨hmF, hEmax⟩
        | error e =>
          dsimp only
          have hmD := poolInv_delete (now + 1) _
            (WorkspaceContextManager.normalizePath path) hmN
          split
          · exact ⟨hmD, hEmax⟩
          · exact ⟨hmD, hEmax⟩
      | some prev =>
        dsimp only
        cases hgp : jsMapGet (WorkspaceContextManager.evictOldestInactiveInstance now m).instances prev with
        | none =>
          dsimp only
          have hfreshX := hEfresh
          have hinvX := hE1
          obtain ⟨hmN, _⟩ := poolInv_set_fresh (now + 1) _
            (WorkspaceContextManager.normalizePath path)
            { context := LightweightContext.new, workspacePath := WorkspaceContextManager.normalizePath path, createdAt := now, lastAccessed := now, isActive := true }
            hinvX hfreshX (Nat.lt_succ_self now) (normalizePath_idem path)
            (by show (WorkspaceContextManager.evictOldestInactiveInstance now m).instances.length + 1 ≤ (WorkspaceContextManager.evictOldestInactiveInstance now m).MAX_INSTANCES; omega)
          cases hinit : LightweightContext.initCtx fs persisted now
              LightweightContext.new (WorkspaceContextManager.normalizePath path) with
          | ok ctx' =>
            dsimp only
            obtain ⟨hmF, _, _⟩ := poolInv_set_present (now + 1) _
              (WorkspaceContextManager.normalizePath path)
              { context := ctx', workspacePath := WorkspaceContextManager.normalizePath path, createdAt := now, lastAccessed := now, isActive := true }
              hmN (jsMapGet_some_has (jsMapGet_jsMapSet_self _ _ _))
              (Nat.lt_succ_self now)
            exact ⟨hmF, hEmax⟩
          | error e =>
            dsimp only
            have hmD := poolInv_delete (now + 1) _
              (WorkspaceContextManager.normalizePath path) hmN
            split
            · exact ⟨hmD, hEmax⟩
            · exact ⟨hmD, hEmax⟩
        | some prevInst =>
          dsimp only
          have hbound : ({ prevInst with isActive := false } :
              WCInstance).lastAccessed < now + 1 :=
            hE1.2.2.2.2 (prev, prevInst) (jsMapGet_some_mem hgp)
          obtain ⟨hinvX, hmPlen, hmPkeys⟩ := poolInv_set_present (now + 1) (WorkspaceContextManager.evictOldestInactiveInstance now m)
            prev { prevInst with isActive := false } hE1 (jsMapGet_some_has hgp) hbound
          have hfreshX : jsMapHas (jsMapSet (WorkspaceContextManager.evictOldestInactiveInstance now m).instances prev
              { prevInst with isActive := false })
              (WorkspaceContextManager.normalizePath path) = false := by
            cases hb : jsMapHas (jsMapSet (WorkspaceContextManager.evictOldestInactiveInstance now m).instances prev
                { prevInst with isActive := false })
                (WorkspaceContextManager.normalizePath path) with
            | false => rfl
            | true =>
              have hmm := (jsMapHas_iff _ _).1 hb
              rw [hmPkeys] at hmm
              exact absurd hmm (jsMapHas_false hEfresh)
          obtain ⟨hmN, _⟩ := poolInv_set_fresh (now + 1) _
            (WorkspaceContextManager.normalizePath path)
            { context := LightweightContext.new, workspacePath := WorkspaceContextManager.normalizePath path, createdAt := now, lastAccessed := now, isActive := true }
            hinvX hfreshX (Nat.lt_succ_self now) (normalizePath_idem path)
            (by show (jsMapSet (WorkspaceContextManager.evictOldestInactiveInstance now m).instances prev { prevInst with isActive := false }).length + 1 ≤ (WorkspaceContextManager.evictOldestInactiveInstance now m).MAX_INSTANCES; rw [hmPlen]; omega)
          cases hinit : LightweightContext.initCtx fs persisted now
              LightweightContext.new (WorkspaceContextManager.normalizePath path) with
          | ok ctx' =>
            dsimp only
            obtain ⟨hmF, _, _⟩ := poolInv_set_present (now + 1) _
              (WorkspaceContextManager.normalizePath path)
              { context := ctx', workspacePath := WorkspaceContextManager.normalizePath path, createdAt := now, lastAccessed := now, isActive := true }
              hmN (jsMapGet_some_has (jsMapGet_jsMapSet_self _ _ _))
              (Nat.lt_succ_self now)
            exact ⟨hmF, hEmax⟩
          | error e =>
            dsimp only
            have hmD := poolInv_delete (now + 1) _
              (WorkspaceContextManager.normalizePath path) hmN
            split
            · exact ⟨hmD, hEmax⟩
            · exact ⟨hmD, hEmax⟩
    · rw [if_neg hfull]
      have hEfresh : jsMapHas m.instances
          (WorkspaceContextManager.normalizePath path) = false := by
        cases hb : jsMapHas m.instances
            (WorkspaceContextManager.normalizePath path) with
        | false => rfl
        | true => exact absurd ((jsMapHas_iff _ _).1 hb) hnotin
      have hEcap : m.instances.length + 1 ≤ m.MAX_INSTANCES := by omega
      cases hcurE : m.currentWorkspacePath with
      | none =>
        dsimp only
        have hfreshX := hEfresh
        have hinvX := h1
        obtain ⟨hmN, _⟩ := poolInv_set_fresh (now + 1) _
          (WorkspaceContextManager.normalizePath path)
          { context := LightweightContext.new, workspacePath := WorkspaceContextManager.normalizePath path, createdAt := now, lastAccessed := now, isActive := true }
          hinvX hfreshX (Nat.lt_succ_self now) (normalizePath_idem path)
          (by show m.instances.length + 1 ≤ m.MAX_INSTANCES; omega)
        cases hinit : LightweightContext.initCtx fs persisted now
            LightweightContext.new (WorkspaceContextManager.normalizePath path) with
        | ok ctx' =>
          dsimp only
          obtain ⟨hmF, _, _⟩ := poolInv_set_present (now + 1) _
            (WorkspaceContextManager.normalizePath path)
            { context := ctx', workspacePath := WorkspaceContextManager.normalizePath path, createdAt := now, lastAccessed := now, isActive := true }
            hmN (jsMapGet_some_has (jsMapGet_jsMapSet_self _ _ _))
            (Nat.lt_succ_self now)
          exact ⟨hmF, rfl⟩
        | error e =>
          dsimp only
          have hmD := poolInv_delete (now + 1) _
            (WorkspaceContextManager.normalizePath path) hmN
          split
          · exact ⟨hmD, rfl⟩
          · exact ⟨hmD, rfl⟩
      | some prev =>
        dsimp only
        cases hgp : jsMapGet m.instances prev with
        | none =>
          dsimp only
          have hfreshX := hEfresh
          have hinvX := h1
          obtain ⟨hmN, _⟩ := poolInv_set_fresh (now + 1) _
            (WorkspaceContextManager.normalizePath path)
            { context := LightweightContext.new, workspacePath := WorkspaceContextManager.normalizePath path, createdAt := now, lastAccessed := now, isActive := true }
            hinvX hfreshX (Nat.lt_succ_self now) (normalizePath_idem path)
            (by show m.instances.length + 1 ≤ m.MAX_INSTANCES; omega)
          cases hinit : LightweightContext.initCtx fs persisted now
              LightweightContext.new (WorkspaceContextManager.normalizePath path) with
          | ok ctx' =>
            dsimp only
            obtain ⟨hmF, _, _⟩ := poolInv_set_present (now + 1) _
              (WorkspaceContextManager.normalizePath path)
              { context := ctx', workspacePath := WorkspaceContextManager.normalizePath path, createdAt := now, lastAccessed := now, isActive := true }
              hmN (jsMapGet_some_has (jsMapGet_jsMapSet_self _ _ _))
              (Nat.lt_succ_self now)
            exact ⟨hmF, rfl⟩
          | error e =>
            dsimp only
            have hmD := poolInv_delete (now + 1) _
              (WorkspaceContextManager.normalizePath path) hmN
            split
            · exact ⟨hmD, rfl⟩
            · exact ⟨hmD, rfl⟩
        | some prevInst =>
          dsimp only
          have hbound : ({ prevInst with isActive := false } :
              WCInstance).lastAccessed < now + 1 :=
            h1.2.2.2.2 (prev, prevInst) (jsMapGet_some_mem hgp)
          obtain ⟨hinvX, hmPlen, hmPkeys⟩ := poolInv_set_present (now + 1) m
            prev { prevInst with isActive := false } h1 (jsMapGet_some_has hgp) hbound
          have hfreshX : jsMapHas (jsMapSet m.instances prev
              { prevInst with isActive := false })
              (WorkspaceContextManager.normalizePath path) = false := by
            cases hb : jsMapHas (jsMapSet m.instances prev
                { prevInst with isActive := false })
                (WorkspaceContextManager.normalizePath path) with
            | false => rfl
            | true =>
              have hmm := (jsMapHas_iff _ _).1 hb
              rw [hmPkeys] at hmm
              exact absurd hmm (jsMapHas_false hEfresh)
          obtain ⟨hmN, _⟩ := poolInv_set_fresh (now + 1) _
            (WorkspaceContextManager.normalizePath path)
            { context := LightweightContext.new, workspacePath := WorkspaceContextManager.normalizePath path, createdAt := now, lastAccessed := now, isActive := true }
            hinvX hfreshX (Nat.lt_succ_self now) (normalizePath_idem path)
            (by show (jsMapSet m.instances prev { prevInst with isActive := false }).length + 1 ≤ m.MAX_INSTANCES; rw [hmPlen]; omega)
          cases hinit : LightweightContext.initCtx fs persisted now
              LightweightContext.new (WorkspaceContextManager.normalizePath path) with
          | ok ctx' =>
            dsimp only
            obtain ⟨hmF, _, _⟩ := poolInv_set_present (now + 1) _
              (WorkspaceContextManager.normalizePath path)
              { context := ctx', workspacePath := WorkspaceContextManager.normalizePath path, createdAt := now, lastAccessed := now, isActive := true }
              hmN (jsMapGet_some_has (jsMapGet_jsMapSet_self _ _ _))
              (Nat.lt_succ_self now)
            exact ⟨hmF, rfl⟩
          | error e =>
            dsimp only
            have hmD := poolInv_delete (now + 1) _
              (WorkspaceContextManager.normalizePath path) hmN
            split
            · exact ⟨hmD, rfl⟩
            · exact ⟨hmD, rfl⟩

theorem applyPoolOp_PoolInv (t now : Nat) (op : PoolOp)
    (m : WorkspaceContextManager) (h : PoolInv t m) (ht : t ≤ now) :
    PoolInv (now + 1) (applyPoolOp m (now, op)) ∧
    (applyPoolOp m (now, op)).MAX_INSTANCES = m.MAX_INSTANCES := by
  cases op with
  | create fs persisted path =>
    exact getOrCreate_PoolInv t now fs persisted m path h ht
  | close path =>
    obtain ⟨hc1, hc2, _, _⟩ := closeWorkspace_PoolInv t m path h
    exact ⟨poolInv_mono (by omega) hc1, hc2⟩
  | sweep =>
    show PoolInv (now + 1) (WorkspaceContextManager.forceCleanup now m).1 ∧
      (WorkspaceContextManager.forceCleanup now m).1.MAX_INSTANCES
        = m.MAX_INSTANCES
    unfold WorkspaceContextManager.forceCleanup
    dsimp only
    have hfold := foldl_preserves
      (P := fun mm => PoolInv t mm ∧ mm.MAX_INSTANCES = m.MAX_INSTANCES)
      (fun mm pth => WorkspaceContextManager.closeWorkspace mm pth)
      (fun mm pth hp =>
        (⟨(closeWorkspace_PoolInv t mm pth hp.1).1,
          ((closeWorkspace_PoolInv t mm pth hp.1).2.1).trans hp.2⟩ :
          PoolInv t (WorkspaceContextManager.closeWorkspace mm pth) ∧
          (WorkspaceContextManager.closeWorkspace mm pth).MAX_INSTANCES
            = m.MAX_INSTANCES))
      ((m.instances.filter fun p =>
        decide (¬ p.2.isActive = true ∧ now - p.2.lastAccessed
          > m.INSTANCE_TTL)).map fun p => p.1)
      m ⟨h, rfl⟩
    exact ⟨poolInv_mono (by omega) hfold.1, hfold.2⟩

theorem applyPoolOps_PoolInv :
    ∀ (ops : List (Nat × PoolOp)) (t : Nat) (m : WorkspaceContextManager),
      PoolInv t m → TimesIncreasing t ops →
      ∃ u, PoolInv u (applyPoolOps m ops) ∧
        (applyPoolOps m ops).MAX_INSTANCES = m.MAX_INSTANCES
  | [], t, m, h, _ => ⟨t, h, rfl⟩
  | (t', op) :: rest, t, m, h, hops => by
    obtain ⟨h1, h2⟩ := hops
    obtain ⟨hs1, hs2⟩ := applyPoolOp_PoolInv t t' op m h h1
    obtain ⟨u, hu1, hu2⟩ := applyPoolOps_PoolInv rest (t' + 1)
      (applyPoolOp m (t', op)) hs1 h2
    exact ⟨u, hu1, hu2.trans hs2⟩

/-- **C9** (amended).  The uniform bound holds only on traces whose
operations happen at strictly increasing times, every instance having been
last accessed strictly before the next operation (the strict
`lastAccessed < Date.now()` comparison in `evictOldestInactiveInstance`
then always finds a victim): under that timing hypothesis the pool never
exceeds `MAX_INSTANCES`, and a full pool is reduced by exactly one instance
by `evictOldestInactiveInstance` before the new instance is registered.
(Without it the bound fails; see the counterexample, where six
`getOrCreateContext` calls in the same millisecond grow the pool to 6.) -/
theorem c9_amended (t : Nat) (m : WorkspaceContextManager)
    (ops : List (Nat × PoolOp)) (h : PoolInv t m)
    (hops : TimesIncreasing t ops) :
    (applyPoolOps m ops).instances.length ≤ m.MAX_INSTANCES ∧
    (m.instances.length = m.MAX_INSTANCES → ∀ now, t ≤ now →
      (WorkspaceContextManager.evictOldestInactiveInstance
        now m).instances.length + 1 = m.instances.length) := by
  constructor
  · obtain ⟨u, hu1, hu2⟩ := applyPoolOps_PoolInv ops t m h hops
    rw [← hu2]
    exact hu1.2.1
  · intro hfull now hnow
    have h2len : 2 ≤ m.instances.length := by
      rw [hfull]
      exact h.2.2.1
    exact (evict_PoolInv t now m h hnow h2len).2.2.1

set_option maxRecDepth 10000 in
/-- **C9** (counterexample).  Six `getOrCreateContext` calls on distinct
roots within the same millisecond (`Date.now()` constant at 0): when the
pool is full the eviction pass compares `lastAccessed < Date.now()`
strictly, every instance was last accessed *at* `Date.now()`, so nothing
is evicted and the pool grows to 6 > `MAX_INSTANCES = 5`. -/
theorem c9_counterexample :
    ({} : WorkspaceContextManager).MAX_INSTANCES = 5 ∧
    (applyPoolOps {} c9trace).instances.length = 6 := by
  exact ⟨rfl, by decide⟩

theorem c9_amended_witness :
    (applyPoolOps {} [(0, PoolOp.create sixRootsFS none "/q0"),
        (1, PoolOp.close "/q0"), (2, PoolOp.sweep)]).instances.length
      ≤ ({} : WorkspaceContextManager).MAX_INSTANCES ∧
    (({} : WorkspaceContextManager).instances.length
        = ({} : WorkspaceContextManager).MAX_INSTANCES → ∀ now, 0 ≤ now →
      (WorkspaceContextManager.evictOldestInactiveInstance now
        ({} : WorkspaceContextManager)).instances.length + 1
        = ({} : WorkspaceContextManager).instances.length) :=
  c9_amended 0 {} [(0, PoolOp.create sixRootsFS none "/q0"),
    (1, PoolOp.close "/q0"), (2, PoolOp.sweep)]
    (by constructor
        · decide
        · exact ⟨by decide, by decide, by decide, by decide⟩)
    (by exact ⟨by decide, by decide, by decide, trivial⟩)
